import Mathlib

/-!
Verification of the analytics event lister (`src/AnalyticsSimpleEventLister.py`).

The Python module is shallowly embedded: JSON documents become the inductive
type `JVal`, Python exceptions become the error type `PyErr`, and every
fallible Python function becomes a Lean function into `Except PyErr _`.
Python dictionaries produced by `json.load` have unique keys, and are
modelled as association lists; Python `None` and JSON `null` coincide (as
they do after `json.load`).  Debug printing is modelled by evaluating the
field accesses the debug code performs (so that their exceptions are kept)
and discarding the text.
-/

namespace Assurator

/-- A parsed JSON document (the result of Python `json.load`).  Numbers are
modelled as integers; the inputs in this module use integer timestamps. -/
inductive JVal where
  | null
  | bool (b : Bool)
  | num (n : Int)
  | str (s : String)
  | arr (elems : List JVal)
  | obj (fields : List (String × JVal))

/-- The Python exceptions the module can raise.  `json.JSONDecodeError` is
kept separate from its superclass `ValueError` because line 135 of the
source catches only the former. -/
inductive PyErr where
  | valueError (msg : String)
  | jsonDecodeError
  | typeError
  | attributeError
  | stopIteration
  | indexError
deriving DecidableEq

/-- Field lookup in a JSON object (Python dict lookup; keys are unique in
dicts produced by `json.load`). -/
def getField : List (String × JVal) → String → Option JVal
  | [], _ => none
  | (k, v) :: rest, key => if k == key then some v else getField rest key

/-- Python `v.get(key, dflt)`: succeeds on dicts, raises `AttributeError`
on every other value. -/
def JVal.get (v : JVal) (key : String) (dflt : JVal) : Except PyErr JVal :=
  match v with
  | .obj fields => .ok ((getField fields key).getD dflt)
  | _ => .error .attributeError

/-- Python `v.get(key)` (default `None`, which the model conflates with
JSON null exactly as `json.load` does). -/
def JVal.getN (v : JVal) (key : String) : Except PyErr JVal := v.get key .null

/-- Pure field access with a default, used only on the specification side of
theorems (never raises; callers establish separately that the modelled code
reaches the same value). -/
def fieldD (v : JVal) (k : String) (dflt : JVal) : JVal :=
  match v with
  | .obj fields => (getField fields k).getD dflt
  | _ => dflt

/-- Python `for x in v`: lists yield their elements, strings yield their
one-character substrings, dicts yield their keys, and every other value
raises `TypeError`. -/
def pyIter : JVal → Except PyErr (List JVal)
  | .arr xs => .ok xs
  | .str s => .ok (s.toList.map fun c => .str (String.mk [c]))
  | .obj fields => .ok (fields.map fun kv => .str kv.1)
  | _ => .error .typeError

/-- Python truthiness of a parsed JSON value. -/
def truthy : JVal → Bool
  | .null => false
  | .bool b => b
  | .num n => n != 0
  | .str s => s != ""
  | .arr xs => !xs.isEmpty
  | .obj fields => !fields.isEmpty

/-- Python `v == s` for a string literal `s`: true exactly when `v` is that
string. -/
def JVal.eqStr (v : JVal) (s : String) : Bool :=
  match v with
  | .str t => t == s
  | _ => false

/-- Substring test, Python `needle in s` on strings. -/
def strContains (needle s : String) : Bool :=
  decide (needle.data <:+: s.data)

/-- Python `needle in v` for a string needle: substring test on strings,
membership on lists, key membership on dicts, `TypeError` otherwise. -/
def pyContains (needle : String) : JVal → Except PyErr Bool
  | .str s => .ok (strContains needle s)
  | .arr xs => .ok (xs.any fun x => x.eqStr needle)
  | .obj fields => .ok (fields.any fun kv => kv.1 == needle)
  | _ => .error .typeError

mutual
/-- Python `repr` of a parsed JSON value (string quoting is simplified:
escape sequences inside strings are not re-escaped). -/
def pyRepr : JVal → String
  | .null => "None"
  | .bool true => "True"
  | .bool false => "False"
  | .num n => toString n
  | .str s => "\x27" ++ s ++ "\x27"
  | .arr xs => "[" ++ pyReprList xs ++ "]"
  | .obj fields => "\x7b" ++ pyReprFields fields ++ "\x7d"

def pyReprList : List JVal → String
  | [] => ""
  | [x] => pyRepr x
  | x :: rest => pyRepr x ++ ", " ++ pyReprList rest

def pyReprFields : List (String × JVal) → String
  | [] => ""
  | [kv] => "\x27" ++ kv.1 ++ "\x27: " ++ pyRepr kv.2
  | kv :: rest => "\x27" ++ kv.1 ++ "\x27: " ++ pyRepr kv.2 ++ ", " ++ pyReprFields rest
end

/-- Python `str`, as used by f-string interpolation. -/
def pyStr : JVal → String
  | .str s => s
  | v => pyRepr v

/-! ## Format detection (`detect_file_type`, lines 11-45) -/

/-- The hostname literal the source compares against (lines 37, 39, 113). -/
def targetHost : String := "hilton.data.adobedc.net"

/-- The Assurance event-name literal (lines 31, 72). -/
def edgeBridgeName : String := "Edge Bridge Request"

/-- The scan of `data["events"]` at lines 30-32: stops on the first event
whose `payload.ACPExtensionEventName` equals the Edge Bridge literal.
Events that are not dicts, and present payloads that are not dicts, raise
`AttributeError` (there is no isinstance guard on this branch). -/
def scanAssuranceEvents : List JVal → Except PyErr Bool
  | [] => .ok false
  | e :: rest =>
    match e.get "payload" (.obj []) with
    | .error err => .error err
    | .ok payload =>
      match payload.getN "ACPExtensionEventName" with
      | .error err => .error err
      | .ok name =>
        if name.eqStr edgeBridgeName then .ok true else scanAssuranceEvents rest

/-- The scan of the top-level list at lines 36-38: an element qualifies when
it is a dict whose `host` equals the target host (this branch has an
isinstance guard, so it never raises). -/
def scanCharlesItems : List JVal → Bool
  | [] => false
  | item :: rest =>
    (match item with
     | .obj fields => ((getField fields "host").getD .null).eqStr targetHost
     | _ => false) || scanCharlesItems rest

/-- The possible states of the input file: unreadable, readable but not
JSON, or a parsed JSON document. -/
inductive FileInput where
  | unreadable
  | notJson
  | parsed (data : JVal)

/-- `detect_file_type` applied to an already-parsed document (the body of
the `try` block after `json.load`, lines 29-41). -/
def detect_data (data : JVal) : Except PyErr String :=
  match data with
  | .obj fields =>
    match getField fields "events" with
    | some evsVal =>
      match pyIter evsVal with
      | .error err => .error err
      | .ok evs =>
        match scanAssuranceEvents evs with
        | .error err => .error err
        | .ok true => .ok "assurance"
        | .ok false =>
          .error (.valueError "JSON has events but none are Edge Bridge Request (not valid Assurance export)")
    | none => .error (.valueError "JSON root is neither an object with events nor a list")
  | .arr items =>
    if scanCharlesItems items then .ok "charles"
    else .error (.valueError "JSON is a list, but no entries have host hilton.data.adobedc.net (not valid Charles export)")
  | _ => .error (.valueError "JSON root is neither an object with events nor a list")

/-- `detect_file_type` (lines 11-45): unreadable files and non-JSON files
become `ValueError`s (lines 42-45); otherwise the parsed document is
inspected.  `AttributeError`/`TypeError` escape the `except` clauses. -/
def detect_file_type : FileInput → Except PyErr String
  | .unreadable => .error (.valueError "File could not be read")
  | .notJson => .error (.valueError "File is not valid JSON")
  | .parsed data => detect_data data

/-! ## Assurance extraction (`extract_assurance_edge_bridge_events`, lines 48-92) -/

/-- The guard `max_events and count >= max_events` of lines 69 and 132: a
Python int is truthy iff it is nonzero. -/
def capReached (max_events : Option Int) (count : Nat) : Bool :=
  match max_events with
  | none => false
  | some m => m != 0 && decide (m ≤ (count : Int))

/-- The collection loop of lines 66-86.  `acc` is the `events` list of
timestamp/payload pairs; `valid_events_count` always equals its length.
`total_events_processed` feeds only the debug print and is dropped.  In
debug mode the loop additionally evaluates the context-data accesses of
lines 79-80, whose `AttributeError`s are not caught. -/
def assuranceScan (is_debug : Bool) (max_events : Option Int) :
    List JVal → List (JVal × JVal) → Except PyErr (List (JVal × JVal))
  | [], acc => .ok acc
  | e :: rest, acc =>
    if capReached max_events acc.length then .ok acc
    else
      match e.get "payload" (.obj []) with
      | .error err => .error err
      | .ok payload =>
      match payload.getN "ACPExtensionEventName" with
      | .error err => .error err
      | .ok name =>
        if name.eqStr edgeBridgeName then
          match payload.get "ACPExtensionEventData" (.obj []) with
          | .error err => .error err
          | .ok event_data =>
          match e.get "timestamp" (.num 0) with
          | .error err => .error err
          | .ok ts =>
            let acc2 := acc ++ [(ts, event_data)]
            if is_debug then
              match event_data.get "data" (.obj []) with
              | .error err => .error err
              | .ok d =>
              match d.get "__adobe" (.obj []) with
              | .error err => .error err
              | .ok adobe =>
              match adobe.get "analytics" (.obj []) with
              | .error err => .error err
              | .ok analytics =>
              match analytics.get "contextData" (.obj []) with
              | .error err => .error err
              | .ok _context => assuranceScan is_debug max_events rest acc2
            else assuranceScan is_debug max_events rest acc2
        else assuranceScan is_debug max_events rest acc

/-- Constructor rank, used only to totalise the sort-key comparison. -/
def JVal.rank : JVal → Nat
  | .null => 0
  | .bool _ => 1
  | .num _ => 2
  | .str _ => 3
  | .arr _ => 4
  | .obj _ => 5

/-- Comparison of sort keys (line 91, `key=lambda x: x[0]`).  On two numbers
this is the numeric order; Python raises `TypeError` on cross-type
comparisons, which the model totalises by constructor rank -- the ordering
theorems below restrict to numeric timestamps, where the two agree. -/
def jleKey : JVal → JVal → Bool
  | .num a, .num b => decide (a ≤ b)
  | a, b => decide (a.rank ≤ b.rank)

/-- Stable insertion into a sorted list: the new element `x` (which occurs
earlier in the original list than everything already inserted) is placed
before the first element whose key is not strictly below the key of `x`. -/
def insertPair (x : JVal × JVal) : List (JVal × JVal) → List (JVal × JVal)
  | [] => [x]
  | y :: rest =>
    if jleKey x.1 y.1 then x :: y :: rest else y :: insertPair x rest

/-- The stable sort of line 91 (`events.sort(key=lambda x: x[0])`).  A
stable sort is extensionally determined by its comparison, so insertion
sort here coincides with CPython timsort. -/
def sortPairs : List (JVal × JVal) → List (JVal × JVal)
  | [] => []
  | x :: rest => insertPair x (sortPairs rest)

/-- The pre-sort stage of `extract_assurance_edge_bridge_events`: read
`data.get("events", [])`, iterate it, and run the collection loop. -/
def assuranceKeptPairs (data : JVal) (is_debug : Bool) (max_events : Option Int) :
    Except PyErr (List (JVal × JVal)) :=
  match data.get "events" (.arr []) with
  | .error err => .error err
  | .ok evsVal =>
    match pyIter evsVal with
    | .error err => .error err
    | .ok evs => assuranceScan is_debug max_events evs []

/-- `extract_assurance_edge_bridge_events` (lines 48-92): collect matching
timestamp/payload pairs, sort them stably by timestamp, and build the
`{"Event i+1": payload}` dict (line 92).  The dict values pass through
`json.dumps` and are immediately `json.loads`-ed back by the pipeline
(lines 92 and 202); that round trip is the identity and is modelled away,
so the dict values here are the payloads themselves. -/
def extract_assurance_edge_bridge_events (data : JVal) (is_debug : Bool)
    (max_events : Option Int) : Except PyErr (List (String × JVal)) :=
  match assuranceKeptPairs data is_debug max_events with
  | .error err => .error err
  | .ok kept =>
    .ok ((sortPairs kept).enum.map fun ie => ("Event " ++ toString (ie.1 + 1), ie.2.2))

/-! ## A JSON parser modelling `json.loads` (line 118)

The embedded request bodies of a Charles log are JSON documents encoded as
strings, so the model needs an executable parser.  It is simplified where
the claims never look: escape sequences inside strings are taken literally
(`\"` and `\\` are exact; `\n`, `\uXXXX` are not decoded) and numerals are
integers. -/

def isWs (c : Char) : Bool := c == ' ' || c == '\t' || c == '\n' || c == '\r'

def skipWs : List Char → List Char
  | [] => []
  | c :: rest => if isWs c then skipWs rest else c :: rest

/-- Parse the remainder of a string literal, after its opening quote. -/
def parseStringChars : List Char → Option (String × List Char)
  | [] => none
  | c :: rest =>
    if c == '"' then some ("", rest)
    else if c == '\\' then
      match rest with
      | [] => none
      | e :: rest2 =>
        match parseStringChars rest2 with
        | some (s, r) => some (String.mk [e] ++ s, r)
        | none => none
    else
      match parseStringChars rest with
      | some (s, r) => some (String.mk [c] ++ s, r)
      | none => none

def takeDigits : List Char → List Char × List Char
  | [] => ([], [])
  | c :: rest =>
    if c.isDigit then
      let (d, r) := takeDigits rest
      (c :: d, r)
    else ([], c :: rest)

def digitsToNat (ds : List Char) : Nat :=
  ds.foldl (fun acc c => 10 * acc + (c.toNat - 48)) 0

/-- Consume an expected literal (the tails of `true`, `false`, `null`). -/
def stripLit : List Char → List Char → Option (List Char)
  | [], cs => some cs
  | l :: ls, c :: cs => if l == c then stripLit ls cs else none
  | _ :: _, [] => none

def parseNum : List Char → Option (JVal × List Char)
  | '-' :: rest =>
    (match takeDigits rest with
     | ([], _) => none
     | (ds, r) => some (.num (-(digitsToNat ds : Int)), r))
  | cs =>
    match takeDigits cs with
    | ([], _) => none
    | (ds, r) => some (.num (digitsToNat ds), r)

mutual
/-- Parse one JSON value; `fuel` strictly decreases on every nested parse
and `json_loads_str` supplies more than the document length, so running out
of fuel only rejects documents that are ill-formed anyway. -/
def parseVal : Nat → List Char → Option (JVal × List Char)
  | 0, _ => none
  | fuel + 1, cs =>
    match skipWs cs with
    | [] => none
    | c :: rest =>
      if c == '"' then
        match parseStringChars rest with
        | some (s, r) => some (.str s, r)
        | none => none
      else if c == '\x7b' then
        match skipWs rest with
        | '\x7d' :: r => some (.obj [], r)
        | cs2 =>
          match parseMembers fuel cs2 with
          | some (fields, r) => some (.obj fields, r)
          | none => none
      else if c == '[' then
        match skipWs rest with
        | ']' :: r => some (.arr [], r)
        | cs2 =>
          match parseItems fuel cs2 with
          | some (xs, r) => some (.arr xs, r)
          | none => none
      else if c == 't' then
        match stripLit ['r', 'u', 'e'] rest with
        | some r => some (.bool true, r)
        | none => none
      else if c == 'f' then
        match stripLit ['a', 'l', 's', 'e'] rest with
        | some r => some (.bool false, r)
        | none => none
      else if c == 'n' then
        match stripLit ['u', 'l', 'l'] rest with
        | some r => some (.null, r)
        | none => none
      else parseNum (c :: rest)

/-- Parse the members of a JSON object, up to and including the closing
brace. -/
def parseMembers : Nat → List Char → Option (List (String × JVal) × List Char)
  | 0, _ => none
  | fuel + 1, cs =>
    match skipWs cs with
    | '"' :: rest =>
      (match parseStringChars rest with
       | none => none
       | some (k, r1) =>
         match skipWs r1 with
         | ':' :: r2 =>
           (match parseVal fuel r2 with
            | none => none
            | some (v, r3) =>
              match skipWs r3 with
              | ',' :: r4 =>
                (match parseMembers fuel r4 with
                 | none => none
                 | some (fields, r5) => some ((k, v) :: fields, r5))
              | '\x7d' :: r4 => some ([(k, v)], r4)
              | _ => none)
         | _ => none)
    | _ => none

/-- Parse the items of a JSON array, up to and including the closing
bracket. -/
def parseItems : Nat → List Char → Option (List JVal × List Char)
  | 0, _ => none
  | fuel + 1, cs =>
    match parseVal fuel cs with
    | none => none
    | some (v, r1) =>
      match skipWs r1 with
      | ',' :: r2 =>
        (match parseItems fuel r2 with
         | none => none
         | some (xs, r3) => some (v :: xs, r3))
      | ']' :: r2 => some (v :: [], r2)
      | _ => none
end

/-- `json.loads` applied to a string: parse one document, allowing only
trailing whitespace. -/
def json_loads_str (s : String) : Except PyErr JVal :=
  match parseVal (2 * s.length + 4) s.data with
  | some (v, rest) => if (skipWs rest).isEmpty then .ok v else .error .jsonDecodeError
  | none => .error .jsonDecodeError

/-- `json.loads` as called on line 118: a non-string argument raises
`TypeError` (which the surrounding `except` catches). -/
def json_loads : JVal → Except PyErr JVal
  | .str s => json_loads_str s
  | _ => .error .typeError

/-! ## Charles extraction (`extract_adobe_events_from_charles`, lines 96-139) -/

/-- The inner event loop of lines 121-133: append each event to the running
list, evaluate the debug accesses of line 125 (whose `AttributeError`s are
not caught by line 135), then return mid-scan when the accumulated count
reaches the cap (lines 132-133).  The flag records that early return. -/
def charlesAppendEvents (is_debug : Bool) (max_events : Option Int) :
    List JVal → List JVal → Except PyErr (List JVal × Bool)
  | [], acc => .ok (acc, false)
  | e :: rest, acc =>
    let acc2 := acc ++ [e]
    let debugAccess : Except PyErr JVal :=
      if is_debug then
        match e.get "data" (.obj []) with
        | .error err => .error err
        | .ok d =>
        match d.get "__adobe" (.obj []) with
        | .error err => .error err
        | .ok adobe =>
        match adobe.get "analytics" (.obj []) with
        | .error err => .error err
        | .ok analytics => analytics.get "contextData" (.obj [])
      else .ok .null
    match debugAccess with
    | .error err => .error err
    | .ok _context =>
      if capReached max_events acc2.length then .ok (acc2, true)
      else charlesAppendEvents is_debug max_events rest acc2

/-- The body of the `try` block, lines 116-133: extract
`request.body.text`, parse it, and walk the resulting `events` list. -/
def charlesTryCall (is_debug : Bool) (max_events : Option Int) (call : JVal)
    (acc : List JVal) : Except PyErr (List JVal × Bool) :=
  match call.get "request" (.obj []) with
  | .error err => .error err
  | .ok req =>
  match req.get "body" (.obj []) with
  | .error err => .error err
  | .ok body =>
  match body.get "text" (.str "") with
  | .error err => .error err
  | .ok text =>
  match json_loads text with
  | .error err => .error err
  | .ok call_data =>
  match call_data.get "events" (.arr []) with
  | .error err => .error err
  | .ok evsVal =>
  match pyIter evsVal with
  | .error err => .error err
  | .ok callEvents => charlesAppendEvents is_debug max_events callEvents acc

/-- The call loop of lines 112-137.  The host test of line 113 happens
outside the `try`, so its errors propagate; inside the `try`, only
`json.JSONDecodeError` and `TypeError` are caught (line 135), skipping the
call, and every other error propagates. -/
def charlesScan (is_debug : Bool) (max_events : Option Int) :
    List JVal → List JVal → Except PyErr (List JVal)
  | [], acc => .ok acc
  | call :: rest, acc =>
    match call.get "host" (.str "") with
    | .error err => .error err
    | .ok host =>
    match pyContains targetHost host with
    | .error err => .error err
    | .ok matchesHost =>
    if !matchesHost then charlesScan is_debug max_events rest acc
    else
      match charlesTryCall is_debug max_events call acc with
      | .ok (acc2, earlyReturn) =>
        if earlyReturn then .ok acc2 else charlesScan is_debug max_events rest acc2
      | .error .jsonDecodeError => charlesScan is_debug max_events rest acc
      | .error .typeError => charlesScan is_debug max_events rest acc
      | .error err => .error err

/-- `extract_adobe_events_from_charles` (lines 96-139). -/
def extract_adobe_events_from_charles (data : JVal) (is_debug : Bool)
    (max_events : Option Int) : Except PyErr (List JVal) :=
  match pyIter data with
  | .error err => .error err
  | .ok calls => charlesScan is_debug max_events calls []

/-! ## Classification (lines 142-167 and the dispatch of lines 201-215) -/

/-- `parse_launch_event` (lines 142-152).  The source reads
`xdm.get("application", {})` once per field; the reads are pure, so the
repeated lookup is shared. -/
def parse_launch_event (event : JVal) : Except PyErr String := do
  let xdm ← event.get "xdm" (.obj [])
  let _data ← event.get "data" (.obj [])
  let app ← xdm.get "application" (.obj [])
  let version ← app.getN "version"
  let name ← app.getN "name"
  let env ← xdm.get "environment" (.obj [])
  let os_type ← env.getN "operatingSystem"
  let os_version ← env.getN "operatingSystemVersion"
  let device ← xdm.get "device" (.obj [])
  let device_model ← device.getN "model"
  .ok ("Launch: " ++ pyStr name ++ " " ++ pyStr version ++ ", " ++ pyStr os_type
    ++ " " ++ pyStr os_version ++ ", Model: " ++ pyStr device_model)

/-- `parse_track_event` (lines 155-167).  `page_name` uses the Python `or`:
the contextData fallback fires whenever the analytics mapping has a falsy
(absent, None, empty, zero) `pageName`; the branch guards are also
truthiness tests, and the `or` on `page_previous` substitutes the literal
`unknown` for falsy values. -/
def parse_track_event (event : JVal) : Except PyErr String := do
  let d0 ← event.get "data" (.obj [])
  let adobe ← d0.get "__adobe" (.obj [])
  let analytics ← adobe.get "analytics" (.obj [])
  let context_data ← analytics.get "contextData" (.obj [])
  let pn ← analytics.getN "pageName"
  let page_name ← if truthy pn then pure pn else context_data.getN "hm.page.name"
  let page_previous ← context_data.getN "hm.page.previous"
  let link_name ← analytics.getN "linkName"
  let prevStr := pyStr (if truthy page_previous then page_previous else .str "unknown")
  if truthy page_name then
    .ok ("Page: " ++ pyStr page_name ++ "; previous page " ++ prevStr)
  else if truthy link_name then
    .ok ("Link: " ++ pyStr link_name ++ "; previous page " ++ prevStr)
  else
    .ok "Unknown analytics TRACK event"

/-- The event-type dispatch of the module-level classifier loop (lines
201-215), as a function of one canonical event. -/
def classify (event : JVal) : Except PyErr String := do
  let xdm ← event.get "xdm" (.obj [])
  let et ← xdm.getN "eventType"
  if et.eqStr "application.launch" then parse_launch_event event
  else if et.eqStr "analytics.track" then parse_track_event event
  else if et.eqStr "application.close" then pure "Application Close"
  else do
    let xdm2 ← event.get "xdm" (.obj [])
    let et2 ← xdm2.get "eventType" (.str "Unknown")
    pure ("Unhandled event type: " ++ pyStr et2)

/-! ## The module-level pipeline (lines 174-220) -/

/-- The pipeline: detect the format (re-raising on failure, lines 176-181),
run the matching extractor with `is_debug=False` and no cap (lines
183-191), evaluate the leftover debug dump of lines 193-197 (which indexes
the first and second events and therefore raises `StopIteration` on an
empty batch and `IndexError` on a single-event batch), classify each event
in dict order, and join the summary lines with newlines (line 220). -/
def pipeline (input : FileInput) : Except PyErr String := do
  let filetype ← detect_file_type input
  let data := match input with
    | .parsed d => d
    | _ => .null
  let events ← match filetype with
    | "charles" =>
      match extract_adobe_events_from_charles data false none with
      | .error err => .error err
      | .ok evs =>
        .ok (evs.enum.map fun ie => ("Event " ++ toString (ie.1 + 1), ie.2))
    | "assurance" => extract_assurance_edge_bridge_events data false none
    | other => .error (.valueError ("Unsupported file type: " ++ other))
  let _first ← match events with
    | [] => .error PyErr.stopIteration
    | kv :: _ => .ok kv.2
  let _second ← match events with
    | _ :: kv2 :: _ => .ok kv2.2
    | _ => .error PyErr.indexError
  let descriptions ← events.mapM fun kv => classify kv.2
  .ok (String.intercalate "\n" descriptions)

/-! ## Specification-side shape predicates

The Python code reaches `.get` calls on nested field values without
isinstance guards, so its documented behaviour is only attained on inputs
whose accessed nested fields, where present, are dicts.  The predicates
below carve out exactly those inputs; they are decidable by evaluation. -/

/-- When field `k` is present on the object, its value is itself an
object. -/
def fieldObjIfPresent (fields : List (String × JVal)) (k : String) : Bool :=
  match getField fields k with
  | some (.obj _) => true
  | some _ => false
  | none => true

/-- An element of the top-level events list that detection can inspect
without an uncaught exception: a dict whose `payload`, when present, is a
dict. -/
def detectEventOk (e : JVal) : Bool :=
  match e with
  | .obj fields => fieldObjIfPresent fields "payload"
  | _ => false

/-- Amended detection domain: when the root is a dict containing `events`,
that value is a list of `detectEventOk` elements.  Every other root is
unconstrained (the list branch has an isinstance guard and the remaining
branch raises `ValueError` immediately). -/
def detectShapeOk : JVal → Bool
  | .obj fields =>
    (match getField fields "events" with
     | none => true
     | some (.arr evs) => evs.all detectEventOk
     | some _ => false)
  | _ => true

def fileShapeOk : FileInput → Bool
  | .parsed d => detectShapeOk d
  | _ => true

/-- An event the Assurance extractor can process: additionally its
`timestamp`, when present, is a number (Python would raise `TypeError`
when sorting incomparable timestamps). -/
def assuranceEventOk (e : JVal) : Bool :=
  match e with
  | .obj fields =>
    fieldObjIfPresent fields "payload" &&
    (match getField fields "timestamp" with
     | none => true
     | some (.num _) => true
     | some _ => false)
  | _ => false

/-- Input domain of the Assurance extractor theorems: the root is a dict
and its `events` value, when present, is a list of `assuranceEventOk`
events. -/
def assuranceShapeOk : JVal → Bool
  | .obj fields =>
    (match getField fields "events" with
     | none => true
     | some (.arr evs) => evs.all assuranceEventOk
     | some _ => false)
  | _ => false

/-- The events list the Assurance extractor iterates (specification side,
matching `data.get("events", [])` on shape-ok inputs). -/
def assuranceEventsList (data : JVal) : List JVal :=
  match fieldD data "events" (.arr []) with
  | .arr l => l
  | _ => []

/-- The keep test of line 72, as a pure predicate (coincides with the code
on shape-ok events). -/
def isEdgeBridgeEvent (e : JVal) : Bool :=
  (fieldD (fieldD e "payload" (.obj [])) "ACPExtensionEventName" .null).eqStr edgeBridgeName

/-- The kept pair carries timestamp exactly the number `t`. -/
def keyIsNum (t : Int) (q : JVal × JVal) : Bool :=
  match q.1 with
  | .num n => n == t
  | _ => false

/-- The timestamp of a kept pair, as an integer (kept pairs have numeric
timestamps on shape-ok inputs). -/
def tsInt (q : JVal × JVal) : Int :=
  match q.1 with
  | .num n => n
  | _ => 0

/-- The host test of line 113, as a pure predicate (coincides with the code
on shape-ok calls). -/
def hostMatches (call : JVal) : Bool :=
  match fieldD call "host" (.str "") with
  | .str s => strContains targetHost s
  | _ => false

/-- `request.body.text` with the defaults of line 117, specification
side. -/
def callText (call : JVal) : JVal :=
  fieldD (fieldD (fieldD call "request" (.obj [])) "body" (.obj [])) "text" (.str "")

/-- A Charles call record within the claimed behaviour: a dict whose
`host`/`request`/`body`/`text` chain is well-typed where present, and whose
body text either fails to parse or parses to a dict whose `events`, when
present, is a list. -/
def charlesCallOk (call : JVal) : Bool :=
  match call with
  | .obj cf =>
    (match getField cf "host" with
     | none => true
     | some (.str _) => true
     | some _ => false) &&
    (match getField cf "request" with
     | none => true
     | some (.obj rf) =>
       (match getField rf "body" with
        | none => true
        | some (.obj bf) =>
          (match getField bf "text" with
           | none => true
           | some (.str _) => true
           | some _ => false)
        | some _ => false)
     | some _ => false) &&
    (match json_loads (callText call) with
     | .error .jsonDecodeError => true
     | .ok (.obj cd) =>
       (match getField cd "events" with
        | none => true
        | some (.arr _) => true
        | some _ => false)
     | _ => false)
  | _ => false

/-- Specification-side contribution of one Charles call, following the
claim: a call contributes nothing unless its host matches; a qualifying
call contributes the `events` list of its parsed body, or nothing when the
body does not parse. -/
def charlesCallContribution (call : JVal) : List JVal :=
  if hostMatches call then
    match json_loads (callText call) with
    | .ok (.obj cd) =>
      (match getField cd "events" with
       | some (.arr evs) => evs
       | _ => [])
    | _ => []
  else []

/-- Track-event inputs on which the renderer is total: the
`data`/`__adobe`/`analytics`/`contextData` chain is dict-typed where
present. -/
def dataShapeOk (event : JVal) : Bool :=
  match event with
  | .obj fields =>
    (match getField fields "data" with
     | none => true
     | some (.obj df) =>
       (match getField df "__adobe" with
        | none => true
        | some (.obj af) =>
          (match getField af "analytics" with
           | none => true
           | some (.obj anf) => fieldObjIfPresent anf "contextData"
           | some _ => false)
        | some _ => false)
     | some _ => false)
  | _ => false

/-- Launch/dispatch inputs on which the classifier is total: the
`xdm`/`application`/`environment`/`device` chain is dict-typed where
present. -/
def xdmShapeOk (event : JVal) : Bool :=
  match event with
  | .obj fields =>
    (match getField fields "xdm" with
     | none => true
     | some (.obj xf) =>
       fieldObjIfPresent xf "application" && fieldObjIfPresent xf "environment" &&
         fieldObjIfPresent xf "device"
     | some _ => false)
  | _ => false

/-- Amended classification domain. -/
def classifyShapeOk (event : JVal) : Bool :=
  xdmShapeOk event && dataShapeOk event

/-- Specification-side rendering rule for `analytics.track` events (the
amended form of the claim): the contextData fallback fires whenever the
analytics mapping has a falsy `pageName`, and the branch guards are
truthiness tests. -/
def trackSpecLine (event : JVal) : String :=
  let analytics := fieldD (fieldD (fieldD event "data" (.obj [])) "__adobe" (.obj []))
    "analytics" (.obj [])
  let context := fieldD analytics "contextData" (.obj [])
  let pn0 := fieldD analytics "pageName" .null
  let page_name := if truthy pn0 then pn0 else fieldD context "hm.page.name" .null
  let prev := fieldD context "hm.page.previous" .null
  let link := fieldD analytics "linkName" .null
  let prevStr := pyStr (if truthy prev then prev else .str "unknown")
  if truthy page_name then "Page: " ++ pyStr page_name ++ "; previous page " ++ prevStr
  else if truthy link then "Link: " ++ pyStr link ++ "; previous page " ++ prevStr
  else "Unknown analytics TRACK event"

/-- Specification-side rendering of `application.launch` events (absent
fields print as Python `None`). -/
def launchSpecLine (event : JVal) : String :=
  let xdm := fieldD event "xdm" (.obj [])
  let app := fieldD xdm "application" (.obj [])
  let env := fieldD xdm "environment" (.obj [])
  let device := fieldD xdm "device" (.obj [])
  "Launch: " ++ pyStr (fieldD app "name" .null) ++ " " ++ pyStr (fieldD app "version" .null)
    ++ ", " ++ pyStr (fieldD env "operatingSystem" .null) ++ " "
    ++ pyStr (fieldD env "operatingSystemVersion" .null)
    ++ ", Model: " ++ pyStr (fieldD device "model" .null)

/-- Scenario-A input: three Edge Bridge events at timestamps 30, 10, 20
plus one non-matching event. -/
def scenarioAData : JVal :=
  .obj [("events", .arr [
    .obj [("timestamp", .num 30),
          ("payload", .obj [("ACPExtensionEventName", .str "Edge Bridge Request"),
                            ("ACPExtensionEventData", .str "thirty")])],
    .obj [("timestamp", .num 10),
          ("payload", .obj [("ACPExtensionEventName", .str "Edge Bridge Request"),
                            ("ACPExtensionEventData", .str "ten")])],
    .obj [("payload", .obj [("ACPExtensionEventName", .str "Other")])],
    .obj [("timestamp", .num 20),
          ("payload", .obj [("ACPExtensionEventName", .str "Edge Bridge Request"),
                            ("ACPExtensionEventData", .str "twenty")])]])]

/-- Scenario-B call with two embedded events. -/
def callGood : JVal :=
  .obj [("host", .str "hilton.data.adobedc.net"),
        ("request", .obj [("body",
          .obj [("text", .str "\x7b\"events\": [\"e1\", \"e2\"]\x7d")])])]

/-- Scenario-B call whose body text is not JSON. -/
def callBad : JVal :=
  .obj [("host", .str "hilton.data.adobedc.net"),
        ("request", .obj [("body", .obj [("text", .str "oops not json")])])]

/-- Scenario-B call to an unrelated host. -/
def callOther : JVal :=
  .obj [("host", .str "example.com"),
        ("request", .obj [("body",
          .obj [("text", .str "\x7b\"events\": [\"zz\"]\x7d")])])]

/-- The two Edge Bridge events (timestamps 30 then 10) used to exhibit the
mid-scan cap timing. -/
def capEvents : List JVal :=
  [.obj [("timestamp", .num 30),
         ("payload", .obj [("ACPExtensionEventName", .str "Edge Bridge Request"),
                           ("ACPExtensionEventData", .str "thirty")])],
   .obj [("timestamp", .num 10),
         ("payload", .obj [("ACPExtensionEventName", .str "Edge Bridge Request"),
                           ("ACPExtensionEventData", .str "ten")])]]

/-! ## Order lemmas for the stable sort -/

theorem jleKey_refl (a : JVal) : jleKey a a = true := by
  cases a <;> simp [jleKey]

theorem jleKey_total (a b : JVal) : jleKey a b = true ∨ jleKey b a = true := by
  cases a <;> cases b <;> simp [jleKey, JVal.rank] <;> omega

theorem jleKey_trans {a b c : JVal} (h1 : jleKey a b = true) (h2 : jleKey b c = true) :
    jleKey a c = true := by
  cases a <;> cases b <;> cases c <;> simp [jleKey, JVal.rank] at h1 h2 ⊢ <;> omega

theorem mem_insertPair {x y : JVal × JVal} {l : List (JVal × JVal)} :
    y ∈ insertPair x l ↔ y = x ∨ y ∈ l := by
  induction l with
  | nil => simp [insertPair]
  | cons z rest ih =>
    simp only [insertPair]
    split
    · simp [List.mem_cons]
    · simp only [List.mem_cons, ih]
      tauto

theorem insertPair_pairwise {x : JVal × JVal} {l : List (JVal × JVal)}
    (h : l.Pairwise fun a b => jleKey a.1 b.1 = true) :
    (insertPair x l).Pairwise fun a b => jleKey a.1 b.1 = true := by
  induction l with
  | nil => simp [insertPair]
  | cons y rest ih =>
    rw [List.pairwise_cons] at h
    obtain ⟨hy, hrest⟩ := h
    simp only [insertPair]
    split
    · rename_i hxy
      refine List.Pairwise.cons ?_ (List.Pairwise.cons hy hrest)
      intro z hz
      rcases List.mem_cons.mp hz with rfl | hz'
      · exact hxy
      · exact jleKey_trans hxy (hy z hz')
    · rename_i hxy
      have hyx : jleKey y.1 x.1 = true := by
        rcases jleKey_total x.1 y.1 with h | h
        · exact absurd h hxy
        · exact h
      refine List.Pairwise.cons ?_ (ih hrest)
      intro z hz
      rcases mem_insertPair.mp hz with rfl | hz'
      · exact hyx
      · exact hy z hz'

theorem sortPairs_pairwise (l : List (JVal × JVal)) :
    (sortPairs l).Pairwise fun a b => jleKey a.1 b.1 = true := by
  induction l with
  | nil => exact List.Pairwise.nil
  | cons x rest ih => exact insertPair_pairwise ih

theorem insertPair_perm (x : JVal × JVal) (l : List (JVal × JVal)) :
    List.Perm (insertPair x l) (x :: l) := by
  induction l with
  | nil => exact List.Perm.refl _
  | cons y rest ih =>
    simp only [insertPair]
    split
    · exact List.Perm.refl _
    · exact (ih.cons y).trans (List.Perm.swap x y rest)

theorem sortPairs_perm (l : List (JVal × JVal)) : List.Perm (sortPairs l) l := by
  induction l with
  | nil => exact List.Perm.refl _
  | cons x rest ih => exact (insertPair_perm x (sortPairs rest)).trans (ih.cons x)

theorem filter_insertPair (p : JVal × JVal → Bool)
    (hpp : ∀ a b, p a = true → p b = true → jleKey a.1 b.1 = true)
    (x : JVal × JVal) (l : List (JVal × JVal)) :
    (insertPair x l).filter p = ((x :: l).filter p : List (JVal × JVal)) := by
  induction l with
  | nil => rfl
  | cons y rest ih =>
    simp only [insertPair]
    split
    · rfl
    · rename_i hxy
      by_cases hx : p x = true <;> by_cases hy : p y = true
      · exact absurd (hpp x y hx hy) hxy
      · simp [List.filter_cons, hx, hy, ih]
      · simp [List.filter_cons, hx, hy, ih]
      · simp [List.filter_cons, hx, hy, ih]

theorem filter_sortPairs (p : JVal × JVal → Bool)
    (hpp : ∀ a b, p a = true → p b = true → jleKey a.1 b.1 = true) :
    ∀ l : List (JVal × JVal), (sortPairs l).filter p = l.filter p := by
  intro l
  induction l with
  | nil => rfl
  | cons x rest ih =>
    calc (sortPairs (x :: rest)).filter p
        = ((x :: sortPairs rest).filter p : List (JVal × JVal)) :=
          filter_insertPair p hpp x (sortPairs rest)
      _ = (x :: rest).filter p := by
          by_cases hx : p x = true <;> simp [List.filter_cons, hx, ih]

/-! ## Cap congruence: the extractors consult `max_events` only through
`capReached` -/

theorem assuranceScan_cap_congr (dbg : Bool) (me me' : Option Int)
    (hcap : ∀ n, capReached me n = capReached me' n) (evs : List JVal) :
    ∀ acc, assuranceScan dbg me evs acc = assuranceScan dbg me' evs acc := by
  induction evs with
  | nil => intro acc; rfl
  | cons e rest ih =>
    intro acc
    cases hc : capReached me' acc.length
    case true => simp [assuranceScan, hcap acc.length, hc]
    case false =>
      cases hp : e.get "payload" (.obj [])
      case error => simp [assuranceScan, *]
      case ok payload =>
        cases hn : payload.getN "ACPExtensionEventName"
        case error => simp [assuranceScan, *]
        case ok name =>
          cases he : name.eqStr edgeBridgeName
          case false => simp [assuranceScan, *]
          case true =>
            cases hd : payload.get "ACPExtensionEventData" (.obj [])
            case error => simp [assuranceScan, *]
            case ok event_data =>
              cases ht : e.get "timestamp" (.num 0)
              case error => simp [assuranceScan, *]
              case ok ts =>
                cases dbg
                case false => simp [assuranceScan, *]
                case true =>
                  cases h1 : event_data.get "data" (.obj [])
                  case error => simp [assuranceScan, *]
                  case ok d =>
                    cases h2 : d.get "__adobe" (.obj [])
                    case error => simp [assuranceScan, *]
                    case ok adobe =>
                      cases h3 : adobe.get "analytics" (.obj [])
                      case error => simp [assuranceScan, *]
                      case ok analytics =>
                        cases h4 : analytics.get "contextData" (.obj [])
                        case error => simp [assuranceScan, *]
                        case ok _c => simp [assuranceScan, *]

theorem charlesAppendEvents_cap_congr (dbg : Bool) (me me' : Option Int)
    (hcap : ∀ n, capReached me n = capReached me' n) (evs : List JVal) :
    ∀ acc, charlesAppendEvents dbg me evs acc = charlesAppendEvents dbg me' evs acc := by
  induction evs with
  | nil => intro acc; rfl
  | cons e rest ih =>
    intro acc
    cases dbg
    case false =>
      cases hc : capReached me' (acc.length + 1)
      case true => simp [charlesAppendEvents, hcap, hc]
      case false => simp [charlesAppendEvents, hcap, hc, ih]
    case true =>
      cases h1 : e.get "data" (.obj [])
      case error => simp [charlesAppendEvents, *]
      case ok d =>
        cases h2 : d.get "__adobe" (.obj [])
        case error => simp [charlesAppendEvents, *]
        case ok adobe =>
          cases h3 : adobe.get "analytics" (.obj [])
          case error => simp [charlesAppendEvents, *]
          case ok analytics =>
            cases h4 : analytics.get "contextData" (.obj [])
            case error => simp [charlesAppendEvents, *]
            case ok _c =>
              cases hc : capReached me' (acc.length + 1)
              case true => simp [charlesAppendEvents, *]
              case false => simp [charlesAppendEvents, *]

theorem charlesTryCall_cap_congr (dbg : Bool) (me me' : Option Int)
    (hcap : ∀ n, capReached me n = capReached me' n) (call : JVal) (acc : List JVal) :
    charlesTryCall dbg me call acc = charlesTryCall dbg me' call acc := by
  have happ := charlesAppendEvents_cap_congr dbg me me' hcap
  cases hr : call.get "request" (.obj [])
  case error => simp [charlesTryCall, *]
  case ok req =>
    cases hb : req.get "body" (.obj [])
    case error => simp [charlesTryCall, *]
    case ok body =>
      cases htx : body.get "text" (.str "")
      case error => simp [charlesTryCall, *]
      case ok text =>
        cases hj : json_loads text
        case error => simp [charlesTryCall, *]
        case ok call_data =>
          cases hev : call_data.get "events" (.arr [])
          case error => simp [charlesTryCall, *]
          case ok evsVal =>
            cases hit : pyIter evsVal
            case error => simp [charlesTryCall, *]
            case ok callEvents => simp [charlesTryCall, *]

theorem charlesScan_cap_congr (dbg : Bool) (me me' : Option Int)
    (hcap : ∀ n, capReached me n = capReached me' n) (calls : List JVal) :
    ∀ acc, charlesScan dbg me calls acc = charlesScan dbg me' calls acc := by
  induction calls with
  | nil => intro acc; rfl
  | cons call rest ih =>
    intro acc
    have htc := charlesTryCall_cap_congr dbg me me' hcap call acc
    cases hh : call.get "host" (.str "")
    case error => simp [charlesScan, *]
    case ok host =>
      cases hm : pyContains targetHost host
      case error => simp [charlesScan, *]
      case ok matchesHost =>
        cases matchesHost
        case false => simp [charlesScan, *]
        case true =>
          cases ht : charlesTryCall dbg me' call acc
          case error err => cases err <;> simp [charlesScan, *]
          case ok p =>
            obtain ⟨acc2, early⟩ := p
            cases early
            case true => simp [charlesScan, *]
            case false => simp [charlesScan, *]

/-- C10: passing `max_events = 0` is the same as passing no cap at all, for
both extractors on every input, because the guards of lines 69 and 132 test
the truthiness of `max_events` (and `0` is falsy) before comparing
counts. -/
theorem cap_zero_is_no_cap (data : JVal) (dbg : Bool) :
    extract_assurance_edge_bridge_events data dbg (some 0) =
      extract_assurance_edge_bridge_events data dbg none ∧
    extract_adobe_events_from_charles data dbg (some 0) =
      extract_adobe_events_from_charles data dbg none := by
  have hcap : ∀ n, capReached (some 0) n = capReached none n := by
    intro n; simp [capReached]
  constructor
  · cases hg : data.get "events" (.arr [])
    case error =>
      simp [extract_assurance_edge_bridge_events, assuranceKeptPairs, hg]
    case ok evsVal =>
      cases hi : pyIter evsVal
      case error =>
        simp [extract_assurance_edge_bridge_events, assuranceKeptPairs, hg, hi]
      case ok evs =>
        simp [extract_assurance_edge_bridge_events, assuranceKeptPairs, hg, hi,
          assuranceScan_cap_congr dbg (some 0) none hcap evs]
  · cases hi : pyIter data
    case error => simp [extract_adobe_events_from_charles, hi]
    case ok calls =>
      simp [extract_adobe_events_from_charles, hi,
        charlesScan_cap_congr dbg (some 0) none hcap calls]

/-! ## Debug mode: per-run success is preserved when the prints are
dropped -/

theorem get_error_attr {v : JVal} {k : String} {d : JVal} {e : PyErr}
    (h : v.get k d = .error e) : e = .attributeError := by
  cases v <;> simp [JVal.get] at h <;> exact h.symm

theorem assuranceScan_debug_ok (me : Option Int) (evs : List JVal) :
    ∀ acc r, assuranceScan true me evs acc = .ok r →
      assuranceScan false me evs acc = .ok r := by
  induction evs with
  | nil => intro acc r h; exact h
  | cons e rest ih =>
    intro acc r h
    cases hc : capReached me acc.length
    case true =>
      simp [assuranceScan, hc] at h ⊢
      exact h
    case false =>
      cases hp : e.get "payload" (.obj [])
      case error => simp [assuranceScan, hc, hp] at h
      case ok payload =>
        cases hn : payload.getN "ACPExtensionEventName"
        case error => simp [assuranceScan, hc, hp, hn] at h
        case ok name =>
          cases he : name.eqStr edgeBridgeName
          case false =>
            simp [assuranceScan, hc, hp, hn, he] at h ⊢
            exact ih acc r h
          case true =>
            cases hd : payload.get "ACPExtensionEventData" (.obj [])
            case error => simp [assuranceScan, hc, hp, hn, he, hd] at h
            case ok event_data =>
              cases ht : e.get "timestamp" (.num 0)
              case error => simp [assuranceScan, hc, hp, hn, he, hd, ht] at h
              case ok ts =>
                cases h1 : event_data.get "data" (.obj [])
                case error => simp [assuranceScan, hc, hp, hn, he, hd, ht, h1] at h
                case ok d =>
                  cases h2 : d.get "__adobe" (.obj [])
                  case error => simp [assuranceScan, hc, hp, hn, he, hd, ht, h1, h2] at h
                  case ok adobe =>
                    cases h3 : adobe.get "analytics" (.obj [])
                    case error =>
                      simp [assuranceScan, hc, hp, hn, he, hd, ht, h1, h2, h3] at h
                    case ok analytics =>
                      cases h4 : analytics.get "contextData" (.obj [])
                      case error =>
                        simp [assuranceScan, hc, hp, hn, he, hd, ht, h1, h2, h3, h4] at h
                      case ok _c =>
                        simp [assuranceScan, hc, hp, hn, he, hd, ht, h1, h2, h3, h4] at h ⊢
                        exact ih _ r h

theorem charlesAppendEvents_debug_ok (me : Option Int) (evs : List JVal) :
    ∀ acc p, charlesAppendEvents true me evs acc = .ok p →
      charlesAppendEvents false me evs acc = .ok p := by
  induction evs with
  | nil => intro acc p h; exact h
  | cons e rest ih =>
    intro acc p h
    cases h1 : e.get "data" (.obj [])
    case error => simp [charlesAppendEvents, h1] at h
    case ok d =>
      cases h2 : d.get "__adobe" (.obj [])
      case error => simp [charlesAppendEvents, h1, h2] at h
      case ok adobe =>
        cases h3 : adobe.get "analytics" (.obj [])
        case error => simp [charlesAppendEvents, h1, h2, h3] at h
        case ok analytics =>
          cases h4 : analytics.get "contextData" (.obj [])
          case error => simp [charlesAppendEvents, h1, h2, h3, h4] at h
          case ok _c =>
            cases hc : capReached me (acc.length + 1)
            case true =>
              simp [charlesAppendEvents, h1, h2, h3, h4, hc] at h ⊢
              exact h
            case false =>
              simp [charlesAppendEvents, h1, h2, h3, h4, hc] at h ⊢
              exact ih _ p h

theorem charlesAppendEvents_debug_err (me : Option Int) (evs : List JVal) :
    ∀ acc err, charlesAppendEvents true me evs acc = .error err →
      err = .attributeError := by
  induction evs with
  | nil => intro acc err h; simp [charlesAppendEvents] at h
  | cons e rest ih =>
    intro acc err h
    cases h1 : e.get "data" (.obj [])
    case error =>
      simp [charlesAppendEvents, h1] at h
      exact h ▸ get_error_attr h1
    case ok d =>
      cases h2 : d.get "__adobe" (.obj [])
      case error =>
        simp [charlesAppendEvents, h1, h2] at h
        exact h ▸ get_error_attr h2
      case ok adobe =>
        cases h3 : adobe.get "analytics" (.obj [])
        case error =>
          simp [charlesAppendEvents, h1, h2, h3] at h
          exact h ▸ get_error_attr h3
        case ok analytics =>
          cases h4 : analytics.get "contextData" (.obj [])
          case error =>
            simp [charlesAppendEvents, h1, h2, h3, h4] at h
            exact h ▸ get_error_attr h4
          case ok _c =>
            cases hc : capReached me (acc.length + 1)
            case true => simp [charlesAppendEvents, h1, h2, h3, h4, hc] at h
            case false =>
              simp [charlesAppendEvents, h1, h2, h3, h4, hc] at h
              exact ih _ err h

theorem charlesTryCall_debug_ok (me : Option Int) (call : JVal) (acc : List JVal)
    (p : List JVal × Bool) (h : charlesTryCall true me call acc = .ok p) :
    charlesTryCall false me call acc = .ok p := by
  cases hr : call.get "request" (.obj [])
  case error => simp [charlesTryCall, hr] at h
  case ok req =>
    cases hb : req.get "body" (.obj [])
    case error => simp [charlesTryCall, hr, hb] at h
    case ok body =>
      cases htx : body.get "text" (.str "")
      case error => simp [charlesTryCall, hr, hb, htx] at h
      case ok text =>
        cases hj : json_loads text
        case error => simp [charlesTryCall, hr, hb, htx, hj] at h
        case ok call_data =>
          cases hev : call_data.get "events" (.arr [])
          case error => simp [charlesTryCall, hr, hb, htx, hj, hev] at h
          case ok evsVal =>
            cases hit : pyIter evsVal
            case error => simp [charlesTryCall, hr, hb, htx, hj, hev, hit] at h
            case ok callEvents =>
              simp [charlesTryCall, hr, hb, htx, hj, hev, hit] at h ⊢
              exact charlesAppendEvents_debug_ok me callEvents acc p h

theorem charlesTryCall_debug_caught (me : Option Int) (call : JVal) (acc : List JVal)
    (err : PyErr) (h : charlesTryCall true me call acc = .error err)
    (hcaught : err = .jsonDecodeError ∨ err = .typeError) :
    charlesTryCall false me call acc = .error err := by
  cases hr : call.get "request" (.obj [])
  case error => simp [charlesTryCall, hr] at h ⊢; exact h
  case ok req =>
    cases hb : req.get "body" (.obj [])
    case error => simp [charlesTryCall, hr, hb] at h ⊢; exact h
    case ok body =>
      cases htx : body.get "text" (.str "")
      case error => simp [charlesTryCall, hr, hb, htx] at h ⊢; exact h
      case ok text =>
        cases hj : json_loads text
        case error => simp [charlesTryCall, hr, hb, htx, hj] at h ⊢; exact h
        case ok call_data =>
          cases hev : call_data.get "events" (.arr [])
          case error => simp [charlesTryCall, hr, hb, htx, hj, hev] at h ⊢; exact h
          case ok evsVal =>
            cases hit : pyIter evsVal
            case error => simp [charlesTryCall, hr, hb, htx, hj, hev, hit] at h ⊢; exact h
            case ok callEvents =>
              simp [charlesTryCall, hr, hb, htx, hj, hev, hit] at h ⊢
              have := charlesAppendEvents_debug_err me callEvents acc err h
              rcases hcaught with rfl | rfl <;> simp_all

theorem charlesScan_debug_ok (me : Option Int) (calls : List JVal) :
    ∀ acc r, charlesScan true me calls acc = .ok r →
      charlesScan false me calls acc = .ok r := by
  induction calls with
  | nil => intro acc r h; exact h
  | cons call rest ih =>
    intro acc r h
    cases hh : call.get "host" (.str "")
    case error => simp [charlesScan, hh] at h
    case ok host =>
      cases hm : pyContains targetHost host
      case error => simp [charlesScan, hh, hm] at h
      case ok matchesHost =>
        cases matchesHost
        case false =>
          simp [charlesScan, hh, hm] at h ⊢
          exact ih acc r h
        case true =>
          cases ht : charlesTryCall true me call acc
          case ok p =>
            obtain ⟨acc2, early⟩ := p
            have ht' := charlesTryCall_debug_ok me call acc (acc2, early) ht
            cases early
            case true =>
              simp [charlesScan, hh, hm, ht, ht'] at h ⊢
              exact h
            case false =>
              simp [charlesScan, hh, hm, ht, ht'] at h ⊢
              exact ih _ r h
          case error err =>
            cases err
            case jsonDecodeError =>
              have ht' := charlesTryCall_debug_caught me call acc _ ht (Or.inl rfl)
              simp [charlesScan, hh, hm, ht, ht'] at h ⊢
              exact ih acc r h
            case typeError =>
              have ht' := charlesTryCall_debug_caught me call acc _ ht (Or.inr rfl)
              simp [charlesScan, hh, hm, ht, ht'] at h ⊢
              exact ih acc r h
            case valueError msg => simp [charlesScan, hh, hm, ht] at h
            case attributeError => simp [charlesScan, hh, hm, ht] at h
            case stopIteration => simp [charlesScan, hh, hm, ht] at h
            case indexError => simp [charlesScan, hh, hm, ht] at h

/-- C9, amended: debug mode can only add failures, never change a result
that is produced.  Whenever an extractor run with `is_debug=True` returns a
batch, the same run with `is_debug=False` returns exactly the same batch.
(The unamended claim is refuted by `debug_counterexample`: the debug-only
field accesses of lines 79 and 125 can raise `AttributeError` on events
whose nested `data`/`__adobe`/`analytics` chain is not dict-shaped, so a
debug run can fail where the silent run succeeds.) -/
theorem debug_preserves_success :
    (∀ (data : JVal) (me : Option Int) (r : List (String × JVal)),
      extract_assurance_edge_bridge_events data true me = .ok r →
      extract_assurance_edge_bridge_events data false me = .ok r) ∧
    (∀ (data : JVal) (me : Option Int) (r : List JVal),
      extract_adobe_events_from_charles data true me = .ok r →
      extract_adobe_events_from_charles data false me = .ok r) := by
  constructor
  · intro data me r h
    cases hk : assuranceKeptPairs data true me
    case error => simp [extract_assurance_edge_bridge_events, hk] at h
    case ok kept =>
      have hk' : assuranceKeptPairs data false me = .ok kept := by
        cases hg : data.get "events" (.arr [])
        case error => simp [assuranceKeptPairs, hg] at hk
        case ok evsVal =>
          cases hi : pyIter evsVal
          case error => simp [assuranceKeptPairs, hg, hi] at hk
          case ok evs =>
            simp [assuranceKeptPairs, hg, hi] at hk ⊢
            exact assuranceScan_debug_ok me evs [] kept hk
      simp [extract_assurance_edge_bridge_events, hk, hk'] at h ⊢
      exact h
  · intro data me r h
    cases hi : pyIter data
    case error => simp [extract_adobe_events_from_charles, hi] at h
    case ok calls =>
      simp [extract_adobe_events_from_charles, hi] at h ⊢
      exact charlesScan_debug_ok me calls [] r h

/-- C9 counterexample: on an Assurance export whose single Edge Bridge
event has the string `"oops"` as its `ACPExtensionEventData`, extraction
with `is_debug=True` raises `AttributeError` (line 79 calls `.get` on that
string) while the same extraction with `is_debug=False` returns the
one-event batch -- so debug mode does affect the returned result. -/
theorem debug_counterexample :
    extract_assurance_edge_bridge_events
        (.obj [("events", .arr [.obj [("timestamp", .num 5),
          ("payload", .obj [("ACPExtensionEventName", .str "Edge Bridge Request"),
                            ("ACPExtensionEventData", .str "oops")])]])])
        true none = .error .attributeError ∧
    extract_assurance_edge_bridge_events
        (.obj [("events", .arr [.obj [("timestamp", .num 5),
          ("payload", .obj [("ACPExtensionEventName", .str "Edge Bridge Request"),
                            ("ACPExtensionEventData", .str "oops")])]])])
        false none = .ok [("Event 1", .str "oops")] :=
  ⟨rfl, rfl⟩

/-- Witness for `debug_preserves_success`: a concrete input on which the
debug run succeeds, transported to the silent run by the theorem. -/
theorem debug_preserves_success_witness :
    extract_assurance_edge_bridge_events
        (.obj [("events", .arr [.obj [("timestamp", .num 5),
          ("payload", .obj [("ACPExtensionEventName", .str "Edge Bridge Request")])]])])
        true none = .ok [("Event 1", .obj [])] ∧
    extract_assurance_edge_bridge_events
        (.obj [("events", .arr [.obj [("timestamp", .num 5),
          ("payload", .obj [("ACPExtensionEventName", .str "Edge Bridge Request")])]])])
        false none = .ok [("Event 1", .obj [])] :=
  ⟨rfl, debug_preserves_success.1 _ none _ rfl⟩

/-! ## C2: the leftover debug dump at lines 193-197 crashes small runs -/

/-- C2 (code bug): on an Assurance export with exactly one Edge Bridge
event, detection succeeds, yet the pipeline aborts with `IndexError`
instead of producing its one-line report.  Lines 193-197 are a leftover
`# DEBUG` dump whose results are never used; line 196
(`list(events.values())[1]`) unconditionally indexes the second event, so
every successfully detected input that yields fewer than two events crashes
(zero events raise `StopIteration` at line 194). -/
theorem pipeline_single_event_crash :
    detect_file_type (.parsed (.obj [("events", .arr [.obj [("timestamp", .num 1),
      ("payload", .obj [("ACPExtensionEventName", .str "Edge Bridge Request"),
                        ("ACPExtensionEventData", .obj [])])]])])) = .ok "assurance" ∧
    pipeline (.parsed (.obj [("events", .arr [.obj [("timestamp", .num 1),
      ("payload", .obj [("ACPExtensionEventName", .str "Edge Bridge Request"),
                        ("ACPExtensionEventData", .obj [])])]])])) = .error .indexError :=
  ⟨rfl, rfl⟩

/-! ## C1: detection outcomes -/

theorem scanAssuranceEvents_ok (evs : List JVal) (h : evs.all detectEventOk = true) :
    ∃ b, scanAssuranceEvents evs = .ok b := by
  induction evs with
  | nil => exact ⟨false, rfl⟩
  | cons e rest ih =>
    simp only [List.all_cons, Bool.and_eq_true] at h
    obtain ⟨he, hrest⟩ := h
    obtain ⟨b, hb⟩ := ih hrest
    cases e with
    | obj fields =>
      have hpf : ∃ pf, (getField fields "payload").getD (.obj []) = .obj pf := by
        simp only [detectEventOk, fieldObjIfPresent] at he
        cases hg : getField fields "payload" with
        | none => exact ⟨[], rfl⟩
        | some v => cases v <;> simp [hg] at he ⊢
      obtain ⟨pf, hpf⟩ := hpf
      cases hname : ((getField pf "ACPExtensionEventName").getD .null).eqStr edgeBridgeName
      case true =>
        exact ⟨true, by simp [scanAssuranceEvents, JVal.get, JVal.getN, hpf, hname]⟩
      case false =>
        exact ⟨b, by simp [scanAssuranceEvents, JVal.get, JVal.getN, hpf, hname, hb]⟩
    | null => simp [detectEventOk] at he
    | bool b' => simp [detectEventOk] at he
    | num n => simp [detectEventOk] at he
    | str s => simp [detectEventOk] at he
    | arr xs => simp [detectEventOk] at he

/-- C1, amended: on input files whose parsed root, when it is a dict
containing `events`, holds a list of dicts whose `payload` fields (where
present) are dicts, detection returns exactly one of
assurance / charles / `ValueError`-with-reason.  Determinism is immediate:
the model is a pure function of the file contents.  (The unamended claim
over all inputs is refuted by `detect_outcomes_counterexample`.) -/
theorem detect_outcomes_amended (input : FileInput) (h : fileShapeOk input = true) :
    detect_file_type input = .ok "assurance" ∨ detect_file_type input = .ok "charles" ∨
    ∃ msg, detect_file_type input = .error (.valueError msg) := by
  cases input with
  | unreadable => exact Or.inr (Or.inr ⟨_, rfl⟩)
  | notJson => exact Or.inr (Or.inr ⟨_, rfl⟩)
  | parsed data =>
    cases data with
    | obj fields =>
      simp only [fileShapeOk, detectShapeOk] at h
      cases hg : getField fields "events" with
      | none =>
        exact Or.inr (Or.inr ⟨"JSON root is neither an object with events nor a list",
          by simp [detect_file_type, detect_data, hg]⟩)
      | some v =>
        cases v with
        | arr evs =>
          rw [hg] at h
          obtain ⟨b, hb⟩ := scanAssuranceEvents_ok evs h
          cases b
          case true =>
            exact Or.inl (by simp [detect_file_type, detect_data, hg, pyIter, hb])
          case false =>
            exact Or.inr (Or.inr
              ⟨"JSON has events but none are Edge Bridge Request (not valid Assurance export)",
               by simp [detect_file_type, detect_data, hg, pyIter, hb]⟩)
        | null => rw [hg] at h; simp at h
        | bool b' => rw [hg] at h; simp at h
        | num n => rw [hg] at h; simp at h
        | str s => rw [hg] at h; simp at h
        | obj g => rw [hg] at h; simp at h
    | arr items =>
      cases hs : scanCharlesItems items
      case true => exact Or.inr (Or.inl (by simp [detect_file_type, detect_data, hs]))
      case false =>
        exact Or.inr (Or.inr
          ⟨"JSON is a list, but no entries have host hilton.data.adobedc.net (not valid Charles export)",
           by simp [detect_file_type, detect_data, hs]⟩)
    | null => exact Or.inr (Or.inr ⟨_, rfl⟩)
    | bool b => exact Or.inr (Or.inr ⟨_, rfl⟩)
    | num n => exact Or.inr (Or.inr ⟨_, rfl⟩)
    | str s => exact Or.inr (Or.inr ⟨_, rfl⟩)

/-- C1 counterexample: on the JSON document `{"events": [1]}` detection
falls outside the three claimed outcomes -- line 31 calls `.get` on the
integer element, so it raises `AttributeError` rather than returning a
format or a `DetectionError`. -/
theorem detect_outcomes_counterexample :
    ¬ (detect_file_type (.parsed (.obj [("events", .arr [.num 1])])) = .ok "assurance" ∨
       detect_file_type (.parsed (.obj [("events", .arr [.num 1])])) = .ok "charles" ∨
       ∃ msg, detect_file_type (.parsed (.obj [("events", .arr [.num 1])])) =
         .error (.valueError msg)) := by
  have hval : detect_file_type (.parsed (.obj [("events", .arr [.num 1])])) =
      .error .attributeError := rfl
  rw [hval]
  rintro (h | h | ⟨msg, h⟩) <;> simp at h

/-- Witness for `detect_outcomes_amended` at a one-event Assurance
document. -/
theorem detect_outcomes_witness :
    fileShapeOk (.parsed (.obj [("events", .arr [.obj [("payload",
      .obj [("ACPExtensionEventName", .str "Edge Bridge Request")])]])])) = true ∧
    (detect_file_type (.parsed (.obj [("events", .arr [.obj [("payload",
        .obj [("ACPExtensionEventName", .str "Edge Bridge Request")])]])])) = .ok "assurance" ∨
     detect_file_type (.parsed (.obj [("events", .arr [.obj [("payload",
        .obj [("ACPExtensionEventName", .str "Edge Bridge Request")])]])])) = .ok "charles" ∨
     ∃ msg, detect_file_type (.parsed (.obj [("events", .arr [.obj [("payload",
        .obj [("ACPExtensionEventName", .str "Edge Bridge Request")])]])])) =
       .error (.valueError msg)) :=
  ⟨rfl, detect_outcomes_amended _ rfl⟩

/-! ## C3 and C8: the classifier and its renderers -/

theorem getD_obj_of_fieldObjIfPresent {fields : List (String × JVal)} {k : String}
    (h : fieldObjIfPresent fields k = true) :
    ∃ g, (getField fields k).getD (.obj []) = .obj g := by
  simp only [fieldObjIfPresent] at h
  cases hg : getField fields k with
  | none => exact ⟨[], rfl⟩
  | some v => cases v <;> simp [hg] at h ⊢

theorem parse_launch_event_eq_spec (event : JVal) (h : xdmShapeOk event = true) :
    parse_launch_event event = .ok (launchSpecLine event) := by
  cases event with
  | obj fields =>
    simp only [xdmShapeOk] at h
    cases hx : getField fields "xdm" with
    | none =>
      simp [parse_launch_event, launchSpecLine, fieldD, JVal.get, JVal.getN, hx,
        Bind.bind, Except.bind, pure, Except.pure, getField]
    | some xv =>
      simp only [hx] at h
      cases xv with
      | obj xf =>
        simp only [Bool.and_eq_true] at h
        obtain ⟨⟨happ, henv⟩, hdev⟩ := h
        obtain ⟨af, haf⟩ := getD_obj_of_fieldObjIfPresent happ
        obtain ⟨ef, hef⟩ := getD_obj_of_fieldObjIfPresent henv
        obtain ⟨df, hdf⟩ := getD_obj_of_fieldObjIfPresent hdev
        simp [parse_launch_event, launchSpecLine, fieldD, JVal.get, JVal.getN, hx,
          haf, hef, hdf, Bind.bind, Except.bind, pure, Except.pure]
      | null => simp at h
      | bool b => simp at h
      | num n => simp at h
      | str s => simp at h
      | arr xs => simp at h
  | null => simp [xdmShapeOk] at h
  | bool b => simp [xdmShapeOk] at h
  | num n => simp [xdmShapeOk] at h
  | str s => simp [xdmShapeOk] at h
  | arr xs => simp [xdmShapeOk] at h

theorem parse_track_event_eq_spec (event : JVal) (h : dataShapeOk event = true) :
    parse_track_event event = .ok (trackSpecLine event) := by
  cases event with
  | obj fields =>
    simp only [dataShapeOk] at h
    cases hd : getField fields "data" with
    | none =>
      simp [parse_track_event, trackSpecLine, fieldD, JVal.get, JVal.getN, hd,
        Bind.bind, Except.bind, pure, Except.pure, truthy, getField]
    | some dv =>
      simp only [hd] at h
      cases dv with
      | obj df =>
        cases ha : getField df "__adobe" with
        | none =>
          simp [parse_track_event, trackSpecLine, fieldD, JVal.get, JVal.getN, hd, ha,
            Bind.bind, Except.bind, pure, Except.pure, truthy, getField]
        | some av =>
          simp only [ha] at h
          cases av with
          | obj af =>
            cases han : getField af "analytics" with
            | none =>
              simp [parse_track_event, trackSpecLine, fieldD, JVal.get, JVal.getN,
                hd, ha, han, Bind.bind, Except.bind, pure, Except.pure, truthy, getField]
            | some anv =>
              simp only [han] at h
              cases anv with
              | obj anf =>
                obtain ⟨cf, hcf⟩ := getD_obj_of_fieldObjIfPresent h
                cases hpn : truthy ((getField anf "pageName").getD .null)
                case true =>
                  simp [parse_track_event, trackSpecLine, fieldD, JVal.get, JVal.getN,
                    hd, ha, han, hcf, hpn, Bind.bind, Except.bind, pure, Except.pure]
                case false =>
                  cases hpg : truthy ((getField cf "hm.page.name").getD .null)
                  case true =>
                    simp [parse_track_event, trackSpecLine, fieldD, JVal.get, JVal.getN,
                      hd, ha, han, hcf, hpn, hpg, Bind.bind, Except.bind, pure, Except.pure]
                  case false =>
                    cases hlink : truthy ((getField anf "linkName").getD .null)
                    case true =>
                      simp [parse_track_event, trackSpecLine, fieldD, JVal.get, JVal.getN,
                        hd, ha, han, hcf, hpn, hpg, hlink,
                        Bind.bind, Except.bind, pure, Except.pure]
                    case false =>
                      simp [parse_track_event, trackSpecLine, fieldD, JVal.get, JVal.getN,
                        hd, ha, han, hcf, hpn, hpg, hlink,
                        Bind.bind, Except.bind, pure, Except.pure]
              | null => simp at h
              | bool b => simp at h
              | num n => simp at h
              | str s => simp at h
              | arr xs => simp at h
          | null => simp at h
          | bool b => simp at h
          | num n => simp at h
          | str s => simp at h
          | arr xs => simp at h
      | null => simp at h
      | bool b => simp at h
      | num n => simp at h
      | str s => simp at h
      | arr xs => simp at h
  | null => simp [dataShapeOk] at h
  | bool b => simp [dataShapeOk] at h
  | num n => simp [dataShapeOk] at h
  | str s => simp [dataShapeOk] at h
  | arr xs => simp [dataShapeOk] at h

/-- C3, amended: classification is total on every event mapping whose
accessed nested fields, where present, are mappings (`xdm`,
`xdm.application`, `xdm.environment`, `xdm.device`, `data`,
`data.__adobe`, `data.__adobe.analytics`, `analytics.contextData`); on
that domain every missing field degrades to a default and `classify`
returns a string.  (The unamended claim -- totality regardless of the
shapes of nested fields -- is refuted by `classify_counterexample`: a
non-dict `xdm` value raises `AttributeError` at line 205.) -/
theorem classify_total_amended (event : JVal) (h : classifyShapeOk event = true) :
    ∃ s, classify event = .ok s := by
  simp only [classifyShapeOk, Bool.and_eq_true] at h
  obtain ⟨hx, hdata⟩ := h
  cases event with
  | obj fields =>
    have hxg : ∃ xf, (getField fields "xdm").getD (.obj []) = .obj xf := by
      simp only [xdmShapeOk] at hx
      cases hg : getField fields "xdm" with
      | none => exact ⟨[], rfl⟩
      | some v => cases v <;> simp [hg] at hx ⊢
    obtain ⟨xf, hxf⟩ := hxg
    by_cases h1 : ((getField xf "eventType").getD .null).eqStr "application.launch" = true
    · exact ⟨launchSpecLine (.obj fields), by
        simp [classify, Bind.bind, Except.bind, pure, Except.pure, JVal.get, JVal.getN,
          hxf, h1, parse_launch_event_eq_spec (.obj fields) hx]⟩
    · by_cases h2 : ((getField xf "eventType").getD .null).eqStr "analytics.track" = true
      · exact ⟨trackSpecLine (.obj fields), by
          simp [classify, Bind.bind, Except.bind, pure, Except.pure, JVal.get, JVal.getN,
            hxf, h1, h2, parse_track_event_eq_spec (.obj fields) hdata]⟩
      · by_cases h3 : ((getField xf "eventType").getD .null).eqStr "application.close" = true
        · exact ⟨"Application Close", by
            simp [classify, Bind.bind, Except.bind, pure, Except.pure, JVal.get, JVal.getN,
              hxf, h1, h2, h3]⟩
        · exact ⟨"Unhandled event type: " ++ pyStr ((getField xf "eventType").getD (.str "Unknown")), by
            simp [classify, Bind.bind, Except.bind, pure, Except.pure, JVal.get, JVal.getN,
              hxf, h1, h2, h3]⟩
  | null => simp [xdmShapeOk] at hx
  | bool b => simp [xdmShapeOk] at hx
  | num n => simp [xdmShapeOk] at hx
  | str s => simp [xdmShapeOk] at hx
  | arr xs => simp [xdmShapeOk] at hx

/-- C3 counterexample: an event mapping whose `xdm` value is the string
`"boom"` makes `classify` raise `AttributeError` (line 205 calls `.get` on
that string), so classification is not total over arbitrary nested
shapes. -/
theorem classify_counterexample :
    classify (.obj [("xdm", .str "boom")]) = .error .attributeError ∧
    ¬ ∃ s, classify (.obj [("xdm", .str "boom")]) = .ok s := by
  refine ⟨rfl, ?_⟩
  rintro ⟨s, hs⟩
  rw [show classify (.obj [("xdm", .str "boom")]) = .error .attributeError from rfl] at hs
  exact Except.noConfusion hs

/-- Witness for `classify_total_amended`: the end-to-end launch scenario
(xdm.application MyApp 2.1 on iOS 17.0, iPhone15). -/
theorem classify_total_witness :
    classifyShapeOk (.obj [("xdm", .obj [("eventType", .str "application.launch"),
      ("application", .obj [("name", .str "MyApp"), ("version", .str "2.1")]),
      ("environment", .obj [("operatingSystem", .str "iOS"),
                            ("operatingSystemVersion", .str "17.0")]),
      ("device", .obj [("model", .str "iPhone15")])])]) = true ∧
    ∃ s, classify (.obj [("xdm", .obj [("eventType", .str "application.launch"),
      ("application", .obj [("name", .str "MyApp"), ("version", .str "2.1")]),
      ("environment", .obj [("operatingSystem", .str "iOS"),
                            ("operatingSystemVersion", .str "17.0")]),
      ("device", .obj [("model", .str "iPhone15")])])]) = .ok s :=
  ⟨rfl, classify_total_amended _ rfl⟩

/-- C8, amended: the renderer for `analytics.track` events follows
`trackSpecLine`: the contextData fallback fires whenever the analytics
mapping's own `pageName` is absent OR falsy (e.g. the empty string), and
the `Page:`/`Link:` branch guards likewise test truthiness, not presence;
`previousPage` degrades to the literal `unknown` when absent or falsy.
(The unamended claim -- fallback only on absence, `Page:` branch on
presence -- is refuted by `track_truthiness_counterexample`.)  Stated for
every event whose `data`/`__adobe`/`analytics`/`contextData` chain is
dict-shaped where present. -/
theorem track_truthiness_amended (event : JVal) (h : dataShapeOk event = true) :
    parse_track_event event = .ok (trackSpecLine event) :=
  parse_track_event_eq_spec event h

/-- C8 counterexample: with `pageName` present but equal to the empty
string and `contextData["hm.page.name"] = "X"`, the renderer falls back to
the contextData value -- the claim (fallback only when `pageName` is
absent, `Page: {pageName}` whenever present) predicts
`"Page: ; previous page unknown"` but the code renders
`"Page: X; previous page unknown"`. -/
theorem track_truthiness_counterexample :
    parse_track_event (.obj [("data", .obj [("__adobe", .obj [("analytics", .obj
      [("pageName", .str ""),
       ("contextData", .obj [("hm.page.name", .str "X")])])])])]) =
      .ok "Page: X; previous page unknown" ∧
    "Page: X; previous page unknown" ≠ "Page: ; previous page unknown" :=
  ⟨rfl, by decide⟩

/-- Witness for `track_truthiness_amended`: the end-to-end link scenario
(no pageName, linkName Book Now, previous page Home). -/
theorem track_truthiness_witness :
    dataShapeOk (.obj [("xdm", .obj [("eventType", .str "analytics.track")]),
      ("data", .obj [("__adobe", .obj [("analytics", .obj
        [("linkName", .str "Book Now"),
         ("contextData", .obj [("hm.page.previous", .str "Home")])])])])]) = true ∧
    parse_track_event (.obj [("xdm", .obj [("eventType", .str "analytics.track")]),
      ("data", .obj [("__adobe", .obj [("analytics", .obj
        [("linkName", .str "Book Now"),
         ("contextData", .obj [("hm.page.previous", .str "Home")])])])])]) =
      .ok (trackSpecLine (.obj [("xdm", .obj [("eventType", .str "analytics.track")]),
        ("data", .obj [("__adobe", .obj [("analytics", .obj
          [("linkName", .str "Book Now"),
           ("contextData", .obj [("hm.page.previous", .str "Home")])])])])])) ∧
    trackSpecLine (.obj [("xdm", .obj [("eventType", .str "analytics.track")]),
      ("data", .obj [("__adobe", .obj [("analytics", .obj
        [("linkName", .str "Book Now"),
         ("contextData", .obj [("hm.page.previous", .str "Home")])])])])]) =
      "Link: Book Now; previous page Home" :=
  ⟨rfl, track_truthiness_amended _ rfl, rfl⟩

/-! ## C4: Assurance extraction is sorted by timestamp and stable -/

theorem keyIsNum_eq {t : Int} {c : JVal × JVal} (hc : keyIsNum t c = true) :
    c.1 = .num t := by
  cases hc1 : c.1 with
  | num n =>
    simp only [keyIsNum, hc1] at hc
    simp at hc
    rw [hc]
  | null => simp [keyIsNum, hc1] at hc
  | bool b => simp [keyIsNum, hc1] at hc
  | str s => simp [keyIsNum, hc1] at hc
  | arr xs => simp [keyIsNum, hc1] at hc
  | obj fs => simp [keyIsNum, hc1] at hc

/-- On shape-ok events the collection loop (without debug mode) always
succeeds, and every kept pair carries a numeric timestamp. -/
theorem assuranceScan_ok_of_shape (me : Option Int) (evs : List JVal)
    (h : evs.all assuranceEventOk = true) :
    ∀ acc, (∀ q ∈ acc, ∃ n : Int, q.1 = .num n) →
      ∃ kept, assuranceScan false me evs acc = .ok kept ∧
        ∀ q ∈ kept, ∃ n : Int, q.1 = .num n := by
  induction evs with
  | nil => intro acc hacc; exact ⟨acc, rfl, hacc⟩
  | cons e rest ih =>
    intro acc hacc
    simp only [List.all_cons, Bool.and_eq_true] at h
    obtain ⟨he, hrest⟩ := h
    cases hc : capReached me acc.length
    case true => exact ⟨acc, by simp [assuranceScan, hc], hacc⟩
    case false =>
      cases e with
      | obj fields =>
        simp only [assuranceEventOk, Bool.and_eq_true] at he
        obtain ⟨hpay, hts⟩ := he
        obtain ⟨pf, hpf⟩ := getD_obj_of_fieldObjIfPresent hpay
        have htsv : ∃ n : Int, (getField fields "timestamp").getD (.num 0) = .num n := by
          cases hg : getField fields "timestamp" with
          | none => exact ⟨0, rfl⟩
          | some v =>
            simp only [hg] at hts
            cases v <;> simp at hts ⊢
        obtain ⟨tn, htn⟩ := htsv
        cases hname : ((getField pf "ACPExtensionEventName").getD .null).eqStr edgeBridgeName
        case false =>
          obtain ⟨kept, hkept, hknum⟩ := ih hrest acc hacc
          exact ⟨kept, by simp [assuranceScan, hc, JVal.get, JVal.getN, hpf, hname, hkept],
            hknum⟩
        case true =>
          have hacc2 : ∀ q ∈ acc ++ [((getField fields "timestamp").getD (.num 0),
              (getField pf "ACPExtensionEventData").getD (.obj []))],
              ∃ n : Int, q.1 = .num n := by
            intro q hq
            rcases List.mem_append.mp hq with hq | hq
            · exact hacc q hq
            · simp only [List.mem_singleton] at hq
              subst hq
              exact ⟨tn, htn⟩
          obtain ⟨kept, hkept, hknum⟩ := ih hrest _ hacc2
          exact ⟨kept, by simp [assuranceScan, hc, JVal.get, JVal.getN, hpf, hname, hkept],
            hknum⟩
      | null => simp [assuranceEventOk] at he
      | bool b => simp [assuranceEventOk] at he
      | num n => simp [assuranceEventOk] at he
      | str s => simp [assuranceEventOk] at he
      | arr xs => simp [assuranceEventOk] at he

/-- C4: on shape-ok Assurance inputs (events are dicts, payloads dicts
where present, timestamps numeric where present) the uncapped extractor
succeeds; its result enumerates the stably sorted kept pairs: the sorted
timestamps ascend, the sorted list is a permutation of the
encounter-ordered kept list, and for every timestamp `t` the sorted
sublist of pairs at `t` equals the encounter-ordered sublist at `t`
(stability: equal-timestamp events keep their source order). -/
theorem assurance_sorted_stable (data : JVal) (h : assuranceShapeOk data = true) :
    ∃ kept, assuranceKeptPairs data false none = .ok kept ∧
      extract_assurance_edge_bridge_events data false none =
        .ok ((sortPairs kept).enum.map fun ie => ("Event " ++ toString (ie.1 + 1), ie.2.2)) ∧
      (sortPairs kept).Pairwise (fun a b => tsInt a ≤ tsInt b) ∧
      List.Perm (sortPairs kept) kept ∧
      (∀ t : Int, (sortPairs kept).filter (keyIsNum t) = kept.filter (keyIsNum t)) := by
  have main : ∀ evs : List JVal, evs.all assuranceEventOk = true →
      ∀ kept, assuranceScan false none evs [] = .ok kept →
      (∀ q ∈ kept, ∃ n : Int, q.1 = .num n) →
      (sortPairs kept).Pairwise (fun a b => tsInt a ≤ tsInt b) ∧
      List.Perm (sortPairs kept) kept ∧
      (∀ t : Int, (sortPairs kept).filter (keyIsNum t) = kept.filter (keyIsNum t)) := by
    intro evs _ kept _ hknum
    refine ⟨?_, sortPairs_perm kept, ?_⟩
    · have hnum' : ∀ q ∈ sortPairs kept, ∃ n : Int, q.1 = .num n := fun q hq =>
        hknum q ((sortPairs_perm kept).mem_iff.mp hq)
      refine List.Pairwise.imp_of_mem ?_ (sortPairs_pairwise kept)
      intro a b ha hb hab
      obtain ⟨m, hm⟩ := hnum' a ha
      obtain ⟨n, hn⟩ := hnum' b hb
      simp [jleKey, hm, hn, tsInt] at hab ⊢
      exact hab
    · intro t
      refine filter_sortPairs (keyIsNum t) ?_ kept
      intro a b hpa hpb
      simp [jleKey, keyIsNum_eq hpa, keyIsNum_eq hpb]
  cases data with
  | obj fields =>
    simp only [assuranceShapeOk] at h
    cases hg : getField fields "events" with
    | none =>
      have hk : assuranceKeptPairs (.obj fields) false none = .ok [] := by
        simp [assuranceKeptPairs, JVal.get, hg, pyIter, assuranceScan]
      refine ⟨[], hk, ?_, ?_, ?_, ?_⟩
      · simp [extract_assurance_edge_bridge_events, hk, sortPairs]
      · simp [sortPairs]
      · simp [sortPairs]
      · intro t; simp [sortPairs]
    | some v =>
      cases v with
      | arr evs =>
        simp only [hg] at h
        obtain ⟨kept, hkept, hknum⟩ := assuranceScan_ok_of_shape none evs h [] (by simp)
        have hk : assuranceKeptPairs (.obj fields) false none = .ok kept := by
          simp [assuranceKeptPairs, JVal.get, hg, pyIter, hkept]
        obtain ⟨h1, h2, h3⟩ := main evs h kept hkept hknum
        exact ⟨kept, hk, by simp [extract_assurance_edge_bridge_events, hk], h1, h2, h3⟩
      | null => simp only [hg] at h; simp at h
      | bool b => simp only [hg] at h; simp at h
      | num n => simp only [hg] at h; simp at h
      | str s => simp only [hg] at h; simp at h
      | obj g => simp only [hg] at h; simp at h
  | null => simp [assuranceShapeOk] at h
  | bool b => simp [assuranceShapeOk] at h
  | num n => simp [assuranceShapeOk] at h
  | str s => simp [assuranceShapeOk] at h
  | arr xs => simp [assuranceShapeOk] at h

/-- Witness for `assurance_sorted_stable` on the scenario-A input; the
final conjunct checks the concrete batch order [10, 20, 30]. -/
theorem assurance_sorted_stable_witness :
    assuranceShapeOk scenarioAData = true ∧
    (∃ kept, assuranceKeptPairs scenarioAData false none = .ok kept ∧
      extract_assurance_edge_bridge_events scenarioAData false none =
        .ok ((sortPairs kept).enum.map fun ie => ("Event " ++ toString (ie.1 + 1), ie.2.2)) ∧
      (sortPairs kept).Pairwise (fun a b => tsInt a ≤ tsInt b) ∧
      List.Perm (sortPairs kept) kept ∧
      (∀ t : Int, (sortPairs kept).filter (keyIsNum t) = kept.filter (keyIsNum t))) ∧
    extract_assurance_edge_bridge_events scenarioAData false none =
      .ok [("Event 1", .str "ten"), ("Event 2", .str "twenty"), ("Event 3", .str "thirty")] :=
  ⟨rfl, assurance_sorted_stable scenarioAData rfl, rfl⟩

/-! ## C5: Charles extraction result is the concatenation of qualifying
calls' event lists -/

theorem charlesAppendEvents_nodebug_nocap (evs : List JVal) :
    ∀ acc, charlesAppendEvents false none evs acc = .ok (acc ++ evs, false) := by
  induction evs with
  | nil => intro acc; simp [charlesAppendEvents]
  | cons e rest ih =>
    intro acc
    simp [charlesAppendEvents, capReached, ih]

theorem charlesScan_concat (calls : List JVal) :
    calls.all charlesCallOk = true →
    ∀ acc, charlesScan false none calls acc =
      .ok (acc ++ (calls.map charlesCallContribution).flatten) := by
  induction calls with
  | nil => intro _ acc; simp [charlesScan]
  | cons call rest ih =>
    intro h acc
    simp only [List.all_cons, Bool.and_eq_true] at h
    obtain ⟨hcall, hrest⟩ := h
    cases call with
    | obj cf =>
      simp only [charlesCallOk, Bool.and_eq_true] at hcall
      obtain ⟨⟨hhost, hreq⟩, hbody⟩ := hcall
      obtain ⟨hv, hhv⟩ : ∃ hv, (getField cf "host").getD (.str "") = .str hv := by
        cases hg : getField cf "host" with
        | none => exact ⟨"", rfl⟩
        | some v =>
          simp only [hg] at hhost
          cases v <;> simp at hhost ⊢
      cases hm : strContains targetHost hv
      case false =>
        simp [charlesScan, JVal.get, hhv, pyContains, hm, ih hrest,
          charlesCallContribution, hostMatches, fieldD]
      case true =>
        cases hr : getField cf "request" with
        | none =>
          simp [charlesScan, charlesTryCall, JVal.get, hhv, pyContains, hm, hr,
            json_loads, json_loads_str, parseVal, skipWs, ih hrest,
            charlesCallContribution, hostMatches, callText, fieldD, getField]
        | some rv =>
          simp only [hr] at hreq
          cases rv with
          | obj rf =>
            cases hb : getField rf "body" with
            | none =>
              simp [charlesScan, charlesTryCall, JVal.get, hhv, pyContains, hm, hr, hb,
                json_loads, json_loads_str, parseVal, skipWs, ih hrest,
                charlesCallContribution, hostMatches, callText, fieldD, getField]
            | some bv =>
              simp only [hb] at hreq
              cases bv with
              | obj bf =>
                cases htx : getField bf "text" with
                | none =>
                  simp [charlesScan, charlesTryCall, JVal.get, hhv, pyContains, hm,
                    hr, hb, htx, json_loads, json_loads_str, parseVal, skipWs, ih hrest,
                    charlesCallContribution, hostMatches, callText, fieldD, getField]
                | some tv =>
                  simp only [htx] at hreq
                  cases tv with
                  | str ts =>
                    have hct : callText (.obj cf) = .str ts := by
                      simp [callText, fieldD, hr, hb, htx]
                    rw [hct] at hbody
                    cases hj : json_loads_str ts with
                    | error e =>
                      simp only [json_loads, hj] at hbody
                      cases e with
                      | jsonDecodeError =>
                        simp [charlesScan, charlesTryCall, JVal.get, hhv, pyContains,
                          hm, hr, hb, htx, json_loads, hj, ih hrest,
                          charlesCallContribution, hostMatches, hct, fieldD, hhv]
                      | valueError msg => simp at hbody
                      | typeError => simp at hbody
                      | attributeError => simp at hbody
                      | stopIteration => simp at hbody
                      | indexError => simp at hbody
                    | ok cd =>
                      simp only [json_loads, hj] at hbody
                      cases cd with
                      | obj cdf =>
                        cases hev : getField cdf "events" with
                        | none =>
                          simp [charlesScan, charlesTryCall, JVal.get, hhv, pyContains,
                            hm, hr, hb, htx, json_loads, hj, hev, pyIter,
                            charlesAppendEvents_nodebug_nocap, ih hrest,
                            charlesCallContribution, hostMatches, hct, fieldD, hhv]
                        | some ev =>
                          simp only [hev] at hbody
                          cases ev with
                          | arr cevs =>
                            simp [charlesScan, charlesTryCall, JVal.get, hhv, pyContains,
                              hm, hr, hb, htx, json_loads, hj, hev, pyIter,
                              charlesAppendEvents_nodebug_nocap, ih hrest,
                              charlesCallContribution, hostMatches, hct, fieldD, hhv]
                          | null => simp at hbody
                          | bool b2 => simp at hbody
                          | num n2 => simp at hbody
                          | str s2 => simp at hbody
                          | obj g2 => simp at hbody
                      | null => simp at hbody
                      | bool b2 => simp at hbody
                      | num n2 => simp at hbody
                      | str s2 => simp at hbody
                      | arr a2 => simp at hbody
                  | null => simp at hreq
                  | bool b2 => simp at hreq
                  | num n2 => simp at hreq
                  | arr a2 => simp at hreq
                  | obj g2 => simp at hreq
              | null => simp at hreq
              | bool b2 => simp at hreq
              | num n2 => simp at hreq
              | str s2 => simp at hreq
              | arr a2 => simp at hreq
          | null => simp at hreq
          | bool b2 => simp at hreq
          | num n2 => simp at hreq
          | str s2 => simp at hreq
          | arr a2 => simp at hreq
    | null => simp [charlesCallOk] at hcall
    | bool b2 => simp [charlesCallOk] at hcall
    | num n2 => simp [charlesCallOk] at hcall
    | str s2 => simp [charlesCallOk] at hcall
    | arr a2 => simp [charlesCallOk] at hcall

/-- C5: on a Charles log whose calls are shape-ok (dict records with
string hosts and text bodies that either fail to parse or parse to a dict
with a list of events), the extraction result is exactly the
concatenation, in call order, of each qualifying call's embedded events
list in its within-call order; non-matching-host calls and
unparseable-body calls contribute nothing and do not abort the scan. -/
theorem charles_concat (calls : List JVal) (h : calls.all charlesCallOk = true) :
    extract_adobe_events_from_charles (.arr calls) false none =
      .ok ((calls.map charlesCallContribution).flatten) := by
  simpa [extract_adobe_events_from_charles, pyIter] using charlesScan_concat calls h []

/-- Witness for `charles_concat` on the scenario-B log (one good call with
two events, one malformed-body call, one unrelated-host call); the last
conjunct checks the concrete concatenation. -/
theorem charles_concat_witness :
    ([callGood, callBad, callOther].all charlesCallOk) = true ∧
    extract_adobe_events_from_charles (.arr [callGood, callBad, callOther]) false none =
      .ok (([callGood, callBad, callOther].map charlesCallContribution).flatten) ∧
    (([callGood, callBad, callOther].map charlesCallContribution).flatten : List JVal) =
      [.str "e1", .str "e2"] :=
  ⟨rfl, charles_concat [callGood, callBad, callOther] rfl, rfl⟩

/-! ## C6: the Assurance cap bounds the number of kept events -/

theorem capReached_some_iff (m : Int) (hm : 1 ≤ m) (n : Nat) :
    capReached (some m) n = true ↔ m.toNat ≤ n := by
  simp only [capReached, Bool.and_eq_true, bne_iff_ne, decide_eq_true_eq]
  omega

/-- The collection loop under a positive cap `m`: it succeeds on shape-ok
events and keeps exactly `min m` (kept so far + matches remaining); in
particular the cap counts kept events, not elements scanned. -/
theorem assuranceScan_capped_length (m : Int) (hm : 1 ≤ m) (evs : List JVal) :
    evs.all assuranceEventOk = true →
    ∀ acc, ∃ kept, assuranceScan false (some m) evs acc = .ok kept ∧
      kept.length = if m.toNat ≤ acc.length then acc.length
        else min m.toNat (acc.length + (evs.filter isEdgeBridgeEvent).length) := by
  induction evs with
  | nil =>
    intro _ acc
    refine ⟨acc, rfl, ?_⟩
    simp only [List.filter_nil, List.length_nil, Nat.add_zero]
    split <;> omega
  | cons e rest ih =>
    intro h acc
    simp only [List.all_cons, Bool.and_eq_true] at h
    obtain ⟨he, hrest⟩ := h
    cases hc : capReached (some m) acc.length
    case true =>
      have hle : m.toNat ≤ acc.length := (capReached_some_iff m hm acc.length).mp hc
      refine ⟨acc, by simp [assuranceScan, hc], ?_⟩
      simp [hle]
    case false =>
      have hlt : ¬ m.toNat ≤ acc.length := fun hle =>
        by simp [(capReached_some_iff m hm acc.length).mpr hle] at hc
      cases e with
      | obj fields =>
        simp only [assuranceEventOk, Bool.and_eq_true] at he
        obtain ⟨hpay, _hts⟩ := he
        obtain ⟨pf, hpf⟩ := getD_obj_of_fieldObjIfPresent hpay
        have hisEB : isEdgeBridgeEvent (.obj fields) =
            ((getField pf "ACPExtensionEventName").getD .null).eqStr edgeBridgeName := by
          simp [isEdgeBridgeEvent, fieldD, hpf]
        cases hname : ((getField pf "ACPExtensionEventName").getD .null).eqStr edgeBridgeName
        case false =>
          obtain ⟨kept, hkept, hlen⟩ := ih hrest acc
          refine ⟨kept, by simp [assuranceScan, hc, JVal.get, JVal.getN, hpf, hname, hkept], ?_⟩
          rw [hlen]
          simp [List.filter_cons, hisEB, hname, hlt]
        case true =>
          obtain ⟨kept, hkept, hlen⟩ :=
            ih hrest (acc ++ [((getField fields "timestamp").getD (.num 0),
              (getField pf "ACPExtensionEventData").getD (.obj []))])
          refine ⟨kept, by simp [assuranceScan, hc, JVal.get, JVal.getN, hpf, hname, hkept], ?_⟩
          rw [hlen]
          simp [List.filter_cons, hisEB, hname, hlt]
          split <;> omega
      | null => simp [assuranceEventOk] at he
      | bool b => simp [assuranceEventOk] at he
      | num n => simp [assuranceEventOk] at he
      | str s => simp [assuranceEventOk] at he
      | arr xs => simp [assuranceEventOk] at he

/-- C6: with a positive cap `m`, Assurance extraction on shape-ok inputs
succeeds with at most `m` events -- exactly `min m` (number of matching
events in the input), regardless of how many matching or non-matching
events the input contains: the cap counts kept events, not elements
scanned. -/
theorem assurance_cap_length (data : JVal) (m : Int) (hm : 1 ≤ m)
    (h : assuranceShapeOk data = true) :
    ∃ res, extract_assurance_edge_bridge_events data false (some m) = .ok res ∧
      res.length ≤ m.toNat ∧
      res.length = min m.toNat ((assuranceEventsList data).filter isEdgeBridgeEvent).length := by
  cases data with
  | obj fields =>
    simp only [assuranceShapeOk] at h
    cases hg : getField fields "events" with
    | none =>
      refine ⟨[], ?_, by simp, ?_⟩
      · simp [extract_assurance_edge_bridge_events, assuranceKeptPairs, JVal.get, hg,
          pyIter, assuranceScan, sortPairs]
      · simp [assuranceEventsList, fieldD, hg]
    | some v =>
      cases v with
      | arr evs =>
        simp only [hg] at h
        obtain ⟨kept, hkept, hlen⟩ := assuranceScan_capped_length m hm evs h []
        simp only [List.length_nil, Nat.zero_add, Nat.le_zero] at hlen
        rw [if_neg (by omega)] at hlen
        have hperm := sortPairs_perm kept
        refine ⟨(sortPairs kept).enum.map fun ie => ("Event " ++ toString (ie.1 + 1), ie.2.2),
          ?_, ?_, ?_⟩
        · simp [extract_assurance_edge_bridge_events, assuranceKeptPairs, JVal.get, hg,
            pyIter, hkept]
        · simp only [List.length_map, List.enum_length, hperm.length_eq]
          omega
        · simp only [List.length_map, List.enum_length, hperm.length_eq]
          have hevl : assuranceEventsList (.obj fields) = evs := by
            simp [assuranceEventsList, fieldD, hg]
          rw [hevl]
          omega
      | null => simp only [hg] at h; simp at h
      | bool b => simp only [hg] at h; simp at h
      | num n => simp only [hg] at h; simp at h
      | str s => simp only [hg] at h; simp at h
      | obj g => simp only [hg] at h; simp at h
  | null => simp [assuranceShapeOk] at h
  | bool b => simp [assuranceShapeOk] at h
  | num n => simp [assuranceShapeOk] at h
  | str s => simp [assuranceShapeOk] at h
  | arr xs => simp [assuranceShapeOk] at h

/-- Witness for `assurance_cap_length`: the scenario-A input (three
matching events) under cap 2 keeps exactly two events -- the two earliest
encountered, sorted. -/
theorem assurance_cap_length_witness :
    (1 : Int) ≤ 2 ∧ assuranceShapeOk scenarioAData = true ∧
    (∃ res, extract_assurance_edge_bridge_events scenarioAData false (some 2) = .ok res ∧
      res.length ≤ (2 : Int).toNat ∧
      res.length =
        min (2 : Int).toNat ((assuranceEventsList scenarioAData).filter isEdgeBridgeEvent).length) ∧
    extract_assurance_edge_bridge_events scenarioAData false (some 2) =
      .ok [("Event 1", .str "ten"), ("Event 2", .str "thirty")] :=
  ⟨by decide, rfl, assurance_cap_length scenarioAData 2 (by decide) rfl, rfl⟩

/-! ## C7: both extractors truncate mid-scan -/

theorem charlesAppendEvents_not_early (m : Int) (hm : 1 ≤ m) (dbg : Bool) (evs : List JVal) :
    ∀ acc acc2, charlesAppendEvents dbg (some m) evs acc = .ok (acc2, false) →
      acc.length < m.toNat → acc2.length < m.toNat := by
  induction evs with
  | nil =>
    intro acc acc2 h hlt
    simp [charlesAppendEvents] at h
    rw [← h]
    exact hlt
  | cons e rest ih =>
    intro acc acc2 h hlt
    cases dbg
    case false =>
      cases hc : capReached (some m) (acc.length + 1)
      case true => simp [charlesAppendEvents, hc] at h
      case false =>
        have hc' : ¬ m.toNat ≤ acc.length + 1 := by
          intro hge
          simp [(capReached_some_iff m hm (acc.length + 1)).mpr hge] at hc
        have hlt2 : (acc ++ [e]).length < m.toNat := by
          simp only [List.length_append, List.length_cons, List.length_nil]
          omega
        simp [charlesAppendEvents, hc] at h
        exact ih _ acc2 h hlt2
    case true =>
      cases h1 : e.get "data" (.obj [])
      case error => simp [charlesAppendEvents, h1] at h
      case ok d =>
        cases h2 : d.get "__adobe" (.obj [])
        case error => simp [charlesAppendEvents, h1, h2] at h
        case ok adobe =>
          cases h3 : adobe.get "analytics" (.obj [])
          case error => simp [charlesAppendEvents, h1, h2, h3] at h
          case ok analytics =>
            cases h4 : analytics.get "contextData" (.obj [])
            case error => simp [charlesAppendEvents, h1, h2, h3, h4] at h
            case ok _c =>
              cases hc : capReached (some m) (acc.length + 1)
              case true => simp [charlesAppendEvents, h1, h2, h3, h4, hc] at h
              case false =>
                have hc' : ¬ m.toNat ≤ acc.length + 1 := by
                  intro hge
                  simp [(capReached_some_iff m hm (acc.length + 1)).mpr hge] at hc
                have hlt2 : (acc ++ [e]).length < m.toNat := by
                  simp only [List.length_append, List.length_cons, List.length_nil]
                  omega
                simp [charlesAppendEvents, h1, h2, h3, h4, hc] at h
                exact ih _ acc2 h hlt2

theorem charlesTryCall_not_early (m : Int) (hm : 1 ≤ m) (dbg : Bool) (call : JVal)
    (acc acc2 : List JVal) (h : charlesTryCall dbg (some m) call acc = .ok (acc2, false))
    (hlt : acc.length < m.toNat) : acc2.length < m.toNat := by
  cases hr : call.get "request" (.obj [])
  case error => simp [charlesTryCall, hr] at h
  case ok req =>
    cases hb : req.get "body" (.obj [])
    case error => simp [charlesTryCall, hr, hb] at h
    case ok body =>
      cases htx : body.get "text" (.str "")
      case error => simp [charlesTryCall, hr, hb, htx] at h
      case ok text =>
        cases hj : json_loads text
        case error => simp [charlesTryCall, hr, hb, htx, hj] at h
        case ok call_data =>
          cases hev : call_data.get "events" (.arr [])
          case error => simp [charlesTryCall, hr, hb, htx, hj, hev] at h
          case ok evsVal =>
            cases hit : pyIter evsVal
            case error => simp [charlesTryCall, hr, hb, htx, hj, hev, hit] at h
            case ok callEvents =>
              simp [charlesTryCall, hr, hb, htx, hj, hev, hit] at h
              exact charlesAppendEvents_not_early m hm dbg callEvents acc acc2 h hlt

/-- Once the Charles scan from an empty accumulator has produced a full-cap
result, appending further calls to the log cannot change it: the loop
returned mid-scan at line 133 and never examined them. -/
theorem charlesScan_early (m : Int) (hm : 1 ≤ m) (calls : List JVal) :
    ∀ acc r post, acc.length < m.toNat →
      charlesScan false (some m) calls acc = .ok r → r.length = m.toNat →
      charlesScan false (some m) (calls ++ post) acc = .ok r := by
  induction calls with
  | nil =>
    intro acc r post hlt h hr
    simp [charlesScan] at h
    rw [← h] at hr
    omega
  | cons call rest ih =>
    intro acc r post hlt h hr
    cases hh : call.get "host" (.str "")
    case error => simp [charlesScan, hh] at h
    case ok host =>
      cases hmq : pyContains targetHost host
      case error => simp [charlesScan, hh, hmq] at h
      case ok matchesHost =>
        cases matchesHost
        case false =>
          simp [charlesScan, hh, hmq] at h ⊢
          exact ih acc r post hlt h hr
        case true =>
          cases ht : charlesTryCall false (some m) call acc
          case ok p =>
            obtain ⟨acc2, early⟩ := p
            cases early
            case true =>
              simp [charlesScan, hh, hmq, ht] at h ⊢
              exact h
            case false =>
              have hlt2 := charlesTryCall_not_early m hm false call acc acc2 ht hlt
              simp [charlesScan, hh, hmq, ht] at h ⊢
              exact ih _ r post hlt2 h hr
          case error err =>
            cases err
            case jsonDecodeError =>
              simp [charlesScan, hh, hmq, ht] at h ⊢
              exact ih acc r post hlt h hr
            case typeError =>
              simp [charlesScan, hh, hmq, ht] at h ⊢
              exact ih acc r post hlt h hr
            case valueError msg => simp [charlesScan, hh, hmq, ht] at h
            case attributeError => simp [charlesScan, hh, hmq, ht] at h
            case stopIteration => simp [charlesScan, hh, hmq, ht] at h
            case indexError => simp [charlesScan, hh, hmq, ht] at h

/-- The Assurance loop checks the cap before examining each element (line
69), so once a scan has kept a full cap of events, appending further input
events cannot change its result. -/
theorem assuranceScan_suffix (m : Int) (hm : 1 ≤ m) (evs : List JVal) :
    ∀ acc r post, assuranceScan false (some m) evs acc = .ok r → r.length = m.toNat →
      assuranceScan false (some m) (evs ++ post) acc = .ok r := by
  induction evs with
  | nil =>
    intro acc r post h hr
    simp [assuranceScan] at h
    subst h
    cases post with
    | nil => rfl
    | cons p ps =>
      have hcap : capReached (some m) acc.length = true :=
        (capReached_some_iff m hm _).mpr (by omega)
      simp [assuranceScan, hcap]
  | cons e rest ih =>
    intro acc r post h hr
    cases hc : capReached (some m) acc.length
    case true =>
      simp [assuranceScan, hc] at h ⊢
      exact h
    case false =>
      cases hp : e.get "payload" (.obj [])
      case error => simp [assuranceScan, hc, hp] at h
      case ok payload =>
        cases hn : payload.getN "ACPExtensionEventName"
        case error => simp [assuranceScan, hc, hp, hn] at h
        case ok name =>
          cases he : name.eqStr edgeBridgeName
          case false =>
            simp [assuranceScan, hc, hp, hn, he] at h ⊢
            exact ih acc r post h hr
          case true =>
            cases hd : payload.get "ACPExtensionEventData" (.obj [])
            case error => simp [assuranceScan, hc, hp, hn, he, hd] at h
            case ok ed =>
              cases ht2 : e.get "timestamp" (.num 0)
              case error => simp [assuranceScan, hc, hp, hn, he, hd, ht2] at h
              case ok ts =>
                simp [assuranceScan, hc, hp, hn, he, hd, ht2] at h ⊢
                exact ih _ r post h hr

/-- C7, amended: both extractors truncate mid-scan.  Charles returns as
soon as the accumulated count reaches the cap (later calls are not
examined at all); the Assurance path likewise stops scanning once its kept
count reaches the cap -- it breaks out at line 70 before examining further
elements and sorts only the kept prefix, so the cap is applied before the
sort, not after.  (The claimed asymmetry -- Assurance scanning all events
and capping post-sort -- is refuted by `cap_timing_counterexample`.) -/
theorem cap_timing_amended (m : Int) (hm : 1 ≤ m) :
    (∀ (calls post r : List JVal),
      charlesScan false (some m) calls [] = .ok r → r.length = m.toNat →
      extract_adobe_events_from_charles (.arr (calls ++ post)) false (some m) = .ok r) ∧
    (∀ (evs post : List JVal) (r : List (JVal × JVal)),
      assuranceScan false (some m) evs [] = .ok r → r.length = m.toNat →
      extract_assurance_edge_bridge_events (.obj [("events", .arr (evs ++ post))]) false (some m)
        = extract_assurance_edge_bridge_events (.obj [("events", .arr evs)]) false (some m)) := by
  constructor
  · intro calls post r h hr
    have h2 := charlesScan_early m hm calls [] r post
      (by simp only [List.length_nil]; omega) h hr
    simpa [extract_adobe_events_from_charles, pyIter] using h2
  · intro evs post r h hr
    have h2 := assuranceScan_suffix m hm evs [] r post h hr
    simp [extract_assurance_edge_bridge_events, assuranceKeptPairs, JVal.get, getField,
      pyIter, h, h2]

/-- C7 counterexample: with cap 1 on Edge Bridge events at timestamps
[30, 10], the Assurance extractor keeps the first-encountered event
(timestamp 30) -- it breaks out of the scan before seeing timestamp 10 and
sorts only the kept prefix.  A post-sort cap, as the claim states, would
instead produce the earliest event (timestamp 10), the head of the
uncapped sorted result. -/
theorem cap_timing_counterexample :
    extract_assurance_edge_bridge_events (.obj [("events", .arr capEvents)]) false (some 1) =
      .ok [("Event 1", .str "thirty")] ∧
    extract_assurance_edge_bridge_events (.obj [("events", .arr capEvents)]) false none =
      .ok [("Event 1", .str "ten"), ("Event 2", .str "thirty")] ∧
    ([("Event 1", JVal.str "thirty")] : List (String × JVal)) ≠
      [("Event 1", JVal.str "ten")] := by
  refine ⟨rfl, rfl, ?_⟩
  simp

/-- Witness for `cap_timing_amended` at cap 1: the Charles side ignores a
trailing garbage call (the integer 7, which would raise `AttributeError`
if examined) once the cap is reached, and the Assurance side ignores a
trailing garbage event for the same reason. -/
theorem cap_timing_witness :
    (1 : Int) ≤ 1 ∧
    charlesScan false (some 1) [callGood] [] = .ok [.str "e1"] ∧
    extract_adobe_events_from_charles (.arr ([callGood] ++ [.num 7])) false (some 1) =
      .ok [.str "e1"] ∧
    assuranceScan false (some 1) capEvents [] = .ok [(.num 30, .str "thirty")] ∧
    extract_assurance_edge_bridge_events
        (.obj [("events", .arr (capEvents ++ [.num 7]))]) false (some 1) =
      extract_assurance_edge_bridge_events (.obj [("events", .arr capEvents)]) false (some 1) :=
  ⟨by decide, rfl,
   (cap_timing_amended 1 (by decide)).1 [callGood] [.num 7] [.str "e1"] rfl rfl,
   rfl,
   (cap_timing_amended 1 (by decide)).2 capEvents [.num 7] [(.num 30, .str "thirty")] rfl rfl⟩

end Assurator
